import Mathlib

/-!
Shallow embedding of the meal-catalog normalization engine from
tools/validate_and_fix_meals.js, together with proofs about its spec.

JavaScript values are modelled by the inductive JVal; JS numbers are
modelled by JNum (a rational or NaN — the claims checked here do not
depend on binary floating-point rounding, only on NaN-ness, sign and
exact pass-through of small literals).  Machine state (the MealValidator
instance fields) is threaded explicitly through every function as a
VState value, mirroring the mutable fields of the class.
-/

set_option maxRecDepth 4000

namespace MealsTool

/-- Model of a JavaScript number: either NaN or an exact rational. -/
inductive JNum where
  | nan : JNum
  | val (q : ℚ) : JNum
deriving DecidableEq, Repr

/-- Model of a JSON/JavaScript value as the engine manipulates it. -/
inductive JVal where
  | undef : JVal
  | jnull : JVal
  | jbool (b : Bool) : JVal
  | jnum (n : JNum) : JVal
  | jstr (s : String) : JVal
  | jarr (xs : List JVal) : JVal
  | jobj (kvs : List (String × JVal)) : JVal

/-- JavaScript strict equality `v === s` against a string: only a string
with the same characters compares equal (objects and arrays compare by
reference in JavaScript and hence never equal a string). -/
def jeqStr : JVal → String → Bool
  | .jstr s, t => s = t
  | _, _ => false

open JVal

/-- ASCII lower-casing of a string, as JavaScript toLowerCase acts on
the ASCII catalog text (structural recursion so that concrete runs
evaluate inside the kernel). -/
def toLowerJs (s : String) : String := String.mk (s.data.map Char.toLower)

/-- Whitespace trim at both ends, as JavaScript String.prototype.trim. -/
def trimJs (s : String) : String :=
  String.mk (((s.data.dropWhile Char.isWhitespace).reverse.dropWhile
    Char.isWhitespace).reverse)

/-- Join a list of strings with a separator. -/
def joinSep (sep : String) : List String → String
  | [] => ""
  | [x] => x
  | x :: t => x ++ sep ++ joinSep sep t

/-- Split a character list at every separator character, keeping empty
fields, as String.split does. -/
def splitCharsAux (p : Char → Bool) : List Char → List Char → List (List Char)
  | [], acc => [acc.reverse]
  | c :: t, acc => if p c then acc.reverse :: splitCharsAux p t [] else splitCharsAux p t (c :: acc)

/-- Value of a list of decimal digit characters. -/
def digitsVal (cs : List Char) : Nat := cs.foldl (fun a c => a * 10 + (c.toNat - 48)) 0

/-- Digits-only string to number, used for array index reads. -/
def decDigitsToNat? (cs : List Char) : Option Nat :=
  if cs ≠ [] ∧ cs.all Char.isDigit then some (digitsVal cs) else none

/-- JavaScript truthiness of a value. -/
def truthy : JVal → Bool
  | .undef => false
  | .jnull => false
  | .jbool b => b
  | .jnum .nan => false
  | .jnum (.val q) => q ≠ 0
  | .jstr s => s ≠ ""
  | .jarr _ => true
  | .jobj _ => true

/-- Values for which `typeof v === 'object'` holds and which are truthy
(the guard `meal && typeof meal === 'object'` of the source). -/
def isObjLike : JVal → Bool
  | .jobj _ => true
  | .jarr _ => true
  | _ => false

/-- JavaScript `a || b`: the first operand when truthy, otherwise the second. -/
def jsOr (a b : JVal) : JVal := if truthy a then a else b

/-- JavaScript `a ?? b`: the first operand unless it is null or undefined. -/
def jsNullish (a b : JVal) : JVal :=
  match a with
  | .undef => b
  | .jnull => b
  | x => x

/-- Decimal digit character for a digit value below ten. -/
def digitChar (n : Nat) : Char := Char.ofNat (48 + n)

/-- Decimal digit list of a natural number, most significant first
(the digits JavaScript prints for an integral number). -/
def natDigits (n : Nat) : List Char :=
  if _h : n < 10 then [digitChar n]
  else natDigits (n / 10) ++ [digitChar (n % 10)]
  decreasing_by exact Nat.div_lt_self (by omega) (by omega)

/-- Decimal string of a natural number, as JavaScript String() prints it. -/
def natToString (n : Nat) : String := String.mk (natDigits n)

/-- Decimal string of an integer, as JavaScript String() prints it. -/
def intToString (i : Int) : String :=
  if i < 0 then "-" ++ natToString i.natAbs else natToString i.natAbs

/-- Least exponent k with 1 ≤ k ≤ 20 such that q·10^k is integral, when one
exists; covers every decimal fraction a JSON catalog realistically holds. -/
def decExp (q : ℚ) : Option Nat :=
  (List.range 20).find? (fun k => q.den ∣ 10 ^ (k + 1)) |>.map (· + 1)

/-- Left-pad a string with zeros to the given length. -/
def padZeros (s : String) (k : Nat) : String :=
  String.mk (List.replicate (k - s.length) '0') ++ s

/-- Decimal rendering of a non-negative rational with denominator dividing
10^k, with exactly the digits JavaScript prints for such a value. -/
def posRatToString (q : ℚ) (k : Nat) : String :=
  let scaled : Nat := (q.num.natAbs * 10 ^ k) / q.den
  natToString (scaled / 10 ^ k) ++ "." ++ padZeros (natToString (scaled % 10 ^ k)) k

/-- String JavaScript prints for a number.  Integers and terminating
decimals are exact; other rationals (unreachable from the claims checked
here) fall back to a fraction rendering. -/
def jnumToString : JNum → String
  | .nan => "NaN"
  | .val q =>
    if q.den = 1 then intToString q.num
    else
      match decExp q with
      | some k => (if q < 0 then "-" else "") ++ posRatToString q k
      | none => intToString q.num ++ "/" ++ natToString q.den

mutual

/-- JavaScript String(v) / template-literal stringification of a value. -/
def jsToString : JVal → String
  | .undef => "undefined"
  | .jnull => "null"
  | .jbool b => cond b "true" "false"
  | .jnum n => jnumToString n
  | .jstr s => s
  | .jarr xs => joinSep "," (jsElemStrings xs)
  | .jobj _ => "[object Object]"

/-- Element strings of Array.prototype.join: null and undefined join as
empty strings, every other element by its String() rendering. -/
def jsElemStrings : List JVal → List String
  | [] => []
  | .jnull :: t => "" :: jsElemStrings t
  | .undef :: t => "" :: jsElemStrings t
  | x :: t => jsToString x :: jsElemStrings t

end

/-- JavaScript Array.prototype.join with the given separator. -/
def jsJoin (sep : String) (xs : List JVal) : String :=
  joinSep sep (jsElemStrings xs)

/-- Check that the first list starts with the second one. -/
def listStartsWith [DecidableEq α] : List α → List α → Bool
  | _, [] => true
  | [], _ :: _ => false
  | a :: t, b :: u => a = b && listStartsWith t u

/-- Check that the pattern occurs somewhere in the haystack. -/
def listHasRun [DecidableEq α] (hay pat : List α) : Bool :=
  if listStartsWith hay pat then true
  else
    match hay with
    | [] => false
    | _ :: t => listHasRun t pat

/-- JavaScript String.prototype.includes: substring containment. -/
def strIncludes (s pat : String) : Bool := listHasRun s.data pat.data

/-- Property read `v[k]`, for objects and (index reads on) arrays; absent
keys give undefined, exactly as in JavaScript. -/
def jsGet (v : JVal) (k : String) : JVal :=
  match v with
  | .jobj kvs => ((kvs.find? (fun p => p.1 = k)).map Prod.snd).getD .undef
  | .jarr xs =>
    match decDigitsToNat? k.data with
    | some i => if natToString i = k ∧ i < xs.length then xs.getD i .undef else .undef
    | none => .undef
  | _ => (.undef)

/-- Assignment into an association list with JavaScript object semantics:
an existing key keeps its position, a new key is appended. -/
def assocSet {α : Type} (l : List (String × α)) (k : String) (v : α) : List (String × α) :=
  match l with
  | [] => [(k, v)]
  | (k', v') :: t => if k' = k then (k, v) :: t else (k', v') :: assocSet t k v

/-- Property write `v[k] = x` on an object value. -/
def jsSet (v : JVal) (k : String) (x : JVal) : JVal :=
  match v with
  | .jobj kvs => .jobj (assocSet kvs k x)
  | y => y

/-- Property deletion `delete v[k]` on an object value. -/
def jsDelete (v : JVal) (k : String) : JVal :=
  match v with
  | .jobj kvs => .jobj (kvs.filter (fun p => p.1 ≠ k))
  | y => y

/-- Own enumerable string-keyed entries of a value: what Object.entries,
Object.assign and object spread traverse. -/
def jsOwnEntries (v : JVal) : List (String × JVal) :=
  match v with
  | .jobj kvs => kvs
  | .jarr xs => xs.enum.map (fun p => (natToString p.1, p.2))
  | .jstr s => s.data.enum.map (fun p => (natToString p.1, .jstr (String.mk [p.2])))
  | _ => []

/-- Object.keys of a value. -/
def jsKeys (v : JVal) : List String := (jsOwnEntries v).map Prod.fst

/-- Object.assign(target, src) for an object target. -/
def jsAssign (target : JVal) (src : JVal) : JVal :=
  (jsOwnEntries src).foldl (fun t p => jsSet t p.1 p.2) target

/-! Canonical constraint tables of the source file. -/

/-- Canonical region keys. -/
def CANONICAL_REGIONS : List String :=
  ["India", "USA", "Europe", "Middle_Eastern", "Latin_American",
   "Nordic", "East_Asian", "African", "Australian"]

/-- Canonical diet keys. -/
def CANONICAL_DIETS : List String :=
  ["Regular", "Keto", "Low_Carb", "Vegetarian", "Vegan",
   "Mediterranean", "High_Protein"]

/-- Canonical meal-type keys. -/
def CANONICAL_MEAL_TYPES : List String := ["breakfast", "lunch", "dinner", "snacks"]

/-- Region synonym table. -/
def REGION_MAPPING : List (String × String) :=
  [("Australia", "Australian"), ("Oceania", "Australian"), ("Oceana", "Australian"),
   ("East Asia", "East_Asian"), ("Latin America", "Latin_American"),
   ("Middle East", "Middle_Eastern"), ("United States", "USA")]

/-- Diet synonym table. -/
def DIET_MAPPING : List (String × String) :=
  [("Low Carb", "Low_Carb"), ("High Protein", "High_Protein"), ("Ketogenic", "Keto")]

/-- Keyword list scanned for Vegan diet violations. -/
def VEGAN_VIOLATIONS : List String :=
  ["chicken", "beef", "pork", "fish", "lamb", "shrimp", "crab", "egg", "eggs",
   "milk", "cheese", "yogurt", "butter", "ghee", "honey", "meat", "turkey",
   "bacon", "ham", "sausage", "dairy", "cream", "gelatin", "casein", "whey"]

/-- Keyword list scanned for Vegetarian diet violations. -/
def VEGETARIAN_VIOLATIONS : List String :=
  ["chicken", "beef", "pork", "fish", "lamb", "shrimp", "crab", "meat",
   "turkey", "bacon", "ham", "sausage", "seafood", "salmon", "tuna"]

/-- Dairy-or-egg term subset deciding the Vegan to Vegetarian demotion. -/
def DAIRY_EGG_TERMS : List String :=
  ["egg", "eggs", "milk", "cheese", "yogurt", "butter", "ghee", "cream", "dairy"]

/-! State of a MealValidator instance. -/

/-- Entry of stats.unparseableNutrients. -/
structure UnparseableEvent where
  id : String
  field : String
  value : JVal

/-- Entry of stats.veganViolations and stats.vegetarianViolations. -/
structure DietViolationEvent where
  id : String
  title : String
  offending : List String
  movedTo : String

/-- The stats object of the validator. -/
structure Stats where
  totalProcessed : Nat
  duplicateIds : Nat
  titlesGenerated : Nat
  regionMappings : Nat
  dietMappings : Nat
  preparationFieldsRemoved : Nat
  optionsFlattened : Nat
  veganViolations : List DietViolationEvent
  vegetarianViolations : List DietViolationEvent
  unparseableNutrients : List UnparseableEvent

/-- Mutable fields of a MealValidator instance, threaded explicitly. -/
structure VState where
  nextId : Nat
  usedIds : List String
  stats : Stats
  idReassignments : List (String × String)
  regionMappings : List (String × String)
  dietMappings : List (String × String)

/-- Stats of a freshly constructed validator. -/
def initStats : Stats :=
  { totalProcessed := 0, duplicateIds := 0, titlesGenerated := 0,
    regionMappings := 0, dietMappings := 0, preparationFieldsRemoved := 0,
    optionsFlattened := 0, veganViolations := [], vegetarianViolations := [],
    unparseableNutrients := [] }

/-- State of a freshly constructed validator: the id counter starts at
100000 and every registry is empty. -/
def initState : VState :=
  { nextId := 100000, usedIds := [], stats := initStats,
    idReassignments := [], regionMappings := [], dietMappings := [] }

/-! Field coercers. -/

/-- JavaScript parseFloat restricted to the strings reachable at its call
site in parseNumeric: after cleaning, the argument consists only of
digits, dots and minus signs, so the exponent and Infinity forms of the
full parseFloat grammar cannot occur and are not modelled. -/
def parseFloatJs (s : String) : JNum :=
  let cs0 := s.data.dropWhile (fun c => c.isWhitespace)
  let (sgn, cs) : ℚ × List Char :=
    match cs0 with
    | '-' :: t => (-1, t)
    | '+' :: t => (1, t)
    | t => (1, t)
  let ipart := cs.takeWhile (fun c => c.isDigit)
  let rest := cs.dropWhile (fun c => c.isDigit)
  let fpart :=
    match rest with
    | '.' :: t => t.takeWhile (fun c => c.isDigit)
    | _ => []
  if ipart = [] ∧ fpart = [] then .nan
  else .val (sgn * ((digitsVal ipart : ℚ) + (digitsVal fpart : ℚ) / (10 : ℚ) ^ fpart.length))

/-- Character class kept by the cleaning regex of parseNumeric
(everything except digits, dots and minus signs is removed). -/
def keepNumChar (c : Char) : Bool := c.isDigit || c = '.' || c = '-'

/-- The cleaned string value.replace(...).trim() of parseNumeric. -/
def cleanNumeric (s : String) : String := trimJs (String.mk (s.data.filter keepNumChar))

/-- MealValidator.parseNumeric: coerce a raw field value to a number,
recording an unparseable event when a string fails to parse. -/
def parseNumeric (value : JVal) (fieldName mealId : String) (st : VState) : JNum × VState :=
  match value with
  | .jnull => (.val 0, st)
  | .undef => (.val 0, st)
  | .jnum n =>
    match n with
    | .nan => (.val 0, st)
    | .val q => (.val q, st)
  | .jstr s =>
    if s = "" then (.val 0, st)
    else
      match parseFloatJs (cleanNumeric s) with
      | .nan =>
        (.val 0, { st with stats := { st.stats with unparseableNutrients :=
          st.stats.unparseableNutrients ++ [⟨mealId, fieldName, value⟩] } })
      | .val q => (.val q, st)
  | _ => (.val 0, st)

/-- Words of the breakfast-inference regex of normalizeMealType. -/
def BREAKFAST_WORDS : List String :=
  ["breakfast", "pancake", "oats", "chai", "cereal", "toast", "morning"]

/-- Words of the dinner-inference regex of normalizeMealType. -/
def DINNER_WORDS : List String :=
  ["dinner", "curry", "roast", "stew", "soup", "evening", "supper"]

/-- Words of the snack-inference regex of normalizeMealType. -/
def SNACK_WORDS : List String :=
  ["snack", "bar", "chips", "nuts", "fruit", "cookie"]

/-- MealValidator.normalizeMealType: canonicalize an explicit meal type,
or infer one from title and tags when no explicit type is given. -/
def normalizeMealType (mealType title tags : JVal) : String :=
  if ¬ truthy mealType then
    let text := toLowerJs (jsToString title ++ " " ++ (match tags with
      | .jarr l => jsJoin " " l
      | _ => ""))
    if BREAKFAST_WORDS.any (fun w => strIncludes text w) then "breakfast"
    else if DINNER_WORDS.any (fun w => strIncludes text w) then "dinner"
    else if SNACK_WORDS.any (fun w => strIncludes text w) then "snacks"
    else "lunch"
  else
    let normalized := trimJs (toLowerJs (jsToString mealType))
    if normalized ∈ CANONICAL_MEAL_TYPES then normalized
    else if normalized = "snack" then "snacks"
    else if normalized = "supper" then "dinner"
    else
      match CANONICAL_MEAL_TYPES.find? (fun t => strIncludes normalized t) with
      | some t => t
      | none => "lunch"

/-- Test of the title placeholder regex: case-insensitively, the string
starts with "option", optional whitespace, then a digit. -/
def isOptionPlaceholder (s : String) : Bool :=
  let cs := (toLowerJs s).data
  if listStartsWith cs "option".data then
    match (cs.drop 6).dropWhile (fun c => c.isWhitespace) with
    | c :: _ => c.isDigit
    | [] => false
  else false

/-- JavaScript split on runs of whitespace, restricted to the trimmed
strings it is applied to in generateTitle (no leading or trailing
whitespace; the empty string splits to a single empty field). -/
def splitWsJs (s : String) : List String :=
  if s = "" then [""]
  else ((splitCharsAux (fun c => c.isWhitespace) s.data []).map String.mk).filter (fun w => w ≠ "")

/-- Increment of stats.titlesGenerated. -/
def bumpTitles (st : VState) : VState :=
  { st with stats := { st.stats with titlesGenerated := st.stats.titlesGenerated + 1 } }

/-- Name a food entry contributes to a generated title.  A non-string
name or title value is stringified here, where JavaScript would instead
raise a TypeError in the subsequent trim; no checked claim reaches that
path. -/
def foodNameOf (f : JVal) : String :=
  match f with
  | .jstr s => s
  | .jnull => ""
  | .jobj _ => jsToString (jsOr (jsGet f "name") (jsOr (jsGet f "title") (.jstr "")))
  | .jarr _ => jsToString (jsOr (jsGet f "name") (jsOr (jsGet f "title") (.jstr "")))
  | _ => ""

/-- The trimmed existing title (meal.title || meal.name || '') of
generateTitle. -/
def existingTitle (meal : JVal) : String :=
  trimJs (jsToString (jsOr (jsGet meal "title") (jsOr (jsGet meal "name") (.jstr ""))))

/-- Title generated from the first up-to-three usable food names, when
the foods array yields any. -/
def foodsTitle (meal : JVal) : Option String :=
  match jsOr (jsGet meal "foods") (.jarr []) with
  | .jarr fs =>
    if fs.length ≠ 0 then
      match ((fs.take 3).map foodNameOf).filter (fun s => s ≠ "" ∧ trimJs s ≠ "") with
      | [] => none
      | [a] => some a
      | [a, b] => some (a ++ " & " ++ b)
      | a :: b :: c :: _ => some (a ++ ", " ++ b ++ " & " ++ c)
    else none
  | _ => none

/-- Title generated from the first six ingredient words, when the
ingredients field is a non-empty string. -/
def ingredientsTitle (meal : JVal) : Option String :=
  match jsOr (jsGet meal "ingredients") (.jstr "") with
  | .jstr s =>
    if s ≠ "" then
      let words := (splitWsJs (trimJs s)).take 6
      if words ≠ [] then
        some (joinSep " " words ++ (if 6 ≤ words.length then "..." else ""))
      else none
    else none
  | _ => none

/-- MealValidator.generateTitle: existing non-placeholder title, else up
to three food names, else the first six ingredient words, else a
synthesized regional fallback title; every synthesis path increments
stats.titlesGenerated. -/
def generateTitle (meal : JVal) (region diet : String) (index : Nat) (st : VState) :
    String × VState :=
  if existingTitle meal ≠ "" ∧ ¬ isOptionPlaceholder (existingTitle meal) then
    (existingTitle meal, st)
  else
    match foodsTitle meal with
    | some t => (t, bumpTitles st)
    | none =>
      match ingredientsTitle meal with
      | some t => (t, bumpTitles st)
      | none => ("Meal " ++ region ++ "-" ++ diet ++ "-" ++ natToString index, bumpTitles st)

/-! Identifier registry. -/

/-- Advance of the while loop of getUniqueId: the first n at or beyond
the start whose decimal string is not yet used, searched with enough fuel
to be exhaustive (one more than the number of used ids). -/
def findFreeId (used : List String) : Nat → Nat → Nat
  | 0, n => n
  | fuel + 1, n => if natToString n ∈ used then findFreeId used fuel (n + 1) else n

/-- Shared tail of getUniqueId: generate a fresh numeric string id,
reserve it, and record the reassignment when an original id existed. -/
def freshId (origKey : Option String) (st : VState) : String × VState :=
  let n := findFreeId st.usedIds (st.usedIds.length + 1) st.nextId
  let id := natToString n
  let st' := { st with nextId := n + 1, usedIds := st.usedIds ++ [id] }
  match origKey with
  | some k => (id, { st' with idReassignments := assocSet st'.idReassignments k id })
  | none => (id, st')

/-- MealValidator.getUniqueId: keep an unused original id, otherwise
count the duplicate and allocate a fresh id. -/
def getUniqueId (originalId : JVal) (st : VState) : String × VState :=
  match originalId with
  | .undef => freshId none st
  | .jnull => freshId none st
  | v =>
    let key := jsToString v
    if key ∈ st.usedIds then
      freshId (some key)
        { st with stats := { st.stats with duplicateIds := st.stats.duplicateIds + 1 } }
    else
      (key, { st with usedIds := st.usedIds ++ [key] })

/-! Canonical records and the per-record pipeline. -/

/-- Fixed-shape output record of the engine. -/
structure CanonRecord where
  id : String
  title : String
  mealType : String
  calories : JNum
  protein : JNum
  carbs : JNum
  fat : JNum
  fiber : JNum
  region : String
  serving_size : Option String
  foods : Option JVal
  ingredients : Option String
  tags : Option (List JVal)
  diets : List JVal

/-- MealValidator.checkDietViolations, applied as in the source to a
normalized record: collect the violation keywords occurring in the
lower-cased concatenation of title, ingredients, tags and food names. -/
def checkDietViolations (meal : CanonRecord) (dietKey : String) : List String :=
  let title := meal.title
  let ingredients := match meal.ingredients with | some s => s | none => ""
  let tags := match meal.tags with | some l => jsJoin " " l | none => ""
  let foods := match meal.foods with
    | some (.jarr fs) => jsJoin " " (fs.map (fun f =>
        match f with
        | .jstr s => .jstr s
        | _ => if truthy f ∧ truthy (jsGet f "name") then jsGet f "name" else .jstr ""))
    | _ => ""
  let textToCheck := toLowerJs (title ++ " " ++ ingredients ++ " " ++ tags ++ " " ++ foods)
  if dietKey = "Vegan" then VEGAN_VIOLATIONS.filter (fun v => strIncludes textToCheck v)
  else if dietKey = "Vegetarian" then
    VEGETARIAN_VIOLATIONS.filter (fun v => strIncludes textToCheck v)
  else []

/-- MealValidator.normalizeMeal: turn one raw record into a canonical
record, or none for non-object input. -/
def normalizeMeal (meal : JVal) (regionKey dietKey : String) (mealTypeHint : JVal)
    (index : Nat) (st : VState) : Option CanonRecord × VState :=
  if ¬ (truthy meal ∧ isObjLike meal) then (none, st)
  else
    let st := { st with stats := { st.stats with totalProcessed := st.stats.totalProcessed + 1 } }
    let st := if (jsKeys meal).any (fun k => strIncludes (toLowerJs k) "preparation")
      then { st with stats := { st.stats with preparationFieldsRemoved :=
        st.stats.preparationFieldsRemoved + 1 } }
      else st
    let idres := getUniqueId (jsGet meal "id") st
    let uniqueId := idres.1
    let st := idres.2
    let mealType := normalizeMealType (jsOr (jsGet meal "mealType") mealTypeHint)
      (jsOr (jsGet meal "title") (.jstr "")) (jsOr (jsGet meal "tags") (.jarr []))
    let tres := generateTitle meal regionKey dietKey index st
    let st := tres.2
    let cres := parseNumeric (jsNullish (jsGet meal "calories") (jsNullish (jsGet meal "kcal")
      (jsNullish (jsGet meal "calories_kcal") (.jnum (.val 0))))) "calories" uniqueId st
    let pres := parseNumeric (jsNullish (jsGet meal "protein")
      (jsNullish (jsGet meal "prot") (.jnum (.val 0)))) "protein" uniqueId cres.2
    let bres := parseNumeric (jsNullish (jsGet meal "carbs") (jsNullish (jsGet meal "carbohydrates")
      (jsNullish (jsGet meal "carb") (.jnum (.val 0))))) "carbs" uniqueId pres.2
    let fres := parseNumeric (jsNullish (jsGet meal "fat")
      (jsNullish (jsGet meal "fats") (.jnum (.val 0)))) "fat" uniqueId bres.2
    let ires := parseNumeric (jsNullish (jsGet meal "fiber")
      (jsNullish (jsGet meal "fib") (.jnum (.val 0)))) "fiber" uniqueId fres.2
    let st := ires.2
    let serving_size := if truthy (jsGet meal "serving_size")
      then some (jsToString (jsGet meal "serving_size")) else none
    let foods := if truthy (jsGet meal "foods") then some (jsGet meal "foods") else none
    let ingredients := if truthy (jsGet meal "ingredients")
      then some (jsToString (jsGet meal "ingredients")) else none
    let tags := if truthy (jsGet meal "tags") then
        some (match jsGet meal "tags" with
          | .jarr l => l
          | t => [.jstr (jsToString t)])
      else none
    let diets := match jsGet meal "diets" with
      | .jarr l => if l.any (fun d => jeqStr d dietKey) then l else .jstr dietKey :: l
      | _ => [.jstr dietKey]
    (some { id := uniqueId, title := tres.1, mealType := mealType,
            calories := cres.1, protein := pres.1, carbs := bres.1,
            fat := fres.1, fiber := ires.1, region := regionKey,
            serving_size := serving_size, foods := foods,
            ingredients := ingredients, tags := tags, diets := diets }, st)

/-- Candidate record derived from one option: the option merged onto (or
its string set as the title of) a copy of the parent, with the id
suffixed by the option index when present and truthy. -/
def optionMealOf (base opt : JVal) (i : Nat) : JVal :=
  let om := match opt with
    | .jstr s => jsSet base "title" (.jstr s)
    | _ => if truthy opt ∧ isObjLike opt then jsAssign base opt else base
  if truthy (jsGet om "id")
  then jsSet om "id" (.jstr (jsToString (jsGet om "id") ++ "_" ++ natToString i))
  else om

/-- Loop body of MealValidator.flattenOptions over the options array. -/
def flattenOptionsLoop (base : JVal) (regionKey dietKey : String) (mealTypeHint : JVal) :
    List JVal → Nat → VState → List CanonRecord × VState
  | [], _, st => ([], st)
  | opt :: rest, i, st =>
    let nres := normalizeMeal (optionMealOf base opt i) regionKey dietKey mealTypeHint i st
    let rres := flattenOptionsLoop base regionKey dietKey mealTypeHint rest (i + 1) nres.2
    (match nres.1 with | some n => n :: rres.1 | none => rres.1, rres.2)

/-- MealValidator.flattenOptions: expand a record carrying an options
array into one candidate record per option; without an options array the
record normalizes to a single-element (or empty) list. -/
def flattenOptions (meal : JVal) (regionKey dietKey : String) (mealTypeHint : JVal)
    (st : VState) : List CanonRecord × VState :=
  match jsGet meal "options" with
  | .jarr xs =>
    let st := { st with stats := { st.stats with optionsFlattened :=
      st.stats.optionsFlattened + 1 } }
    let base := jsDelete (.jobj (jsOwnEntries meal)) "options"
    flattenOptionsLoop base regionKey dietKey mealTypeHint xs 0 st
  | _ =>
    let nres := normalizeMeal meal regionKey dietKey mealTypeHint 0 st
    (match nres.1 with | some s => [s] | none => [], nres.2)

/-! The canonical catalog structure. -/

/-- Nested association-list image of the cleanedData object:
region key to diet key to meal-type key to record list.  Key presence
mirrors property presence in the JavaScript object; the __meta__ block is
carried separately in VOutput. -/
abbrev Catalog := List (String × List (String × List (String × List CanonRecord)))

/-- Update the value stored at the first occurrence of a key; a missing
key leaves the list unchanged (the source only ever updates keys it
created during initialization). -/
def updA {α : Type} (k : String) (f : α → α) : List (String × α) → List (String × α)
  | [] => []
  | (k', v) :: t => if k' = k then (k', f v) :: t else (k', v) :: updA k f t

/-- The push cleanedData[r][d][mt].push(rec) of the source. -/
def pushCat (cat : Catalog) (r d mt : String) (rec : CanonRecord) : Catalog :=
  updA r (updA d (updA mt (fun l => l ++ [rec]))) cat

/-- Association-list read: the value at the first occurrence of a key. -/
def lookupA {α : Type} : List (String × α) → String → Option α
  | [], _ => none
  | (k', v) :: t, k => if k' = k then some v else lookupA t k

/-- Property chain cleanedData[r][d][mt]. -/
def lookup3 (cat : Catalog) (r d mt : String) : Option (List CanonRecord) :=
  match lookupA cat r with
  | some rd =>
    match lookupA rd d with
    | some md => lookupA md mt
    | none => none
  | none => none

/-- Initialization loop of validateAndFix: every canonical region, diet
and meal-type bucket is created with an empty array. -/
def initCatalog : Catalog :=
  CANONICAL_REGIONS.map (fun r => (r, CANONICAL_DIETS.map (fun d =>
    (d, CANONICAL_MEAL_TYPES.map (fun mt => (mt, ([] : List CanonRecord)))))))

/-! The catalog reconciler. -/

/-- Rewrite of the diets array on reclassification: the target diet comes
first, followed by the previous entries not strictly equal to it. -/
def rewriteDiets (m : CanonRecord) (targetDiet : String) : CanonRecord :=
  { m with diets := .jstr targetDiet :: m.diets.filter (fun dv => ¬ jeqStr dv targetDiet) }

/-- Bucket key normalizedMeal.mealType || 'lunch' of the push sites. -/
def mtBucketKey (m : CanonRecord) : String := if m.mealType = "" then "lunch" else m.mealType

/-- Per-normalized-record body of the inner loop of validateAndFix:
check diet violations, reclassify if needed, and push the record into its
bucket. -/
def placeNormalized (cleanedData : Catalog) (regionKey dietKey : String) (m : CanonRecord)
    (st : VState) : Catalog × VState :=
  let violations := checkDietViolations m dietKey
  if violations ≠ [] then
    let tgt : String × VState :=
      if dietKey = "Vegan" then
        let dairyEggOnly := violations.all (fun v => v ∈ DAIRY_EGG_TERMS)
        let t := if dairyEggOnly then "Vegetarian" else "Regular"
        (t, { st with stats := { st.stats with veganViolations :=
          st.stats.veganViolations ++ [⟨m.id, m.title, violations, t⟩] } })
      else if dietKey = "Vegetarian" then
        ("Regular", { st with stats := { st.stats with vegetarianViolations :=
          st.stats.vegetarianViolations ++ [⟨m.id, m.title, violations, "Regular"⟩] } })
      else (dietKey, st)
    let m' := rewriteDiets m tgt.1
    (pushCat cleanedData regionKey tgt.1 (mtBucketKey m') m', tgt.2)
  else
    (pushCat cleanedData regionKey dietKey (mtBucketKey m) m, st)

/-- Placement loop over the records a flattenOptions call produced. -/
def placeLoop : List CanonRecord → Catalog → String → String → VState → Catalog × VState
  | [], cat, _, _, st => (cat, st)
  | m :: rest, cat, regionKey, dietKey, st =>
    let pres := placeNormalized cat regionKey dietKey m st
    placeLoop rest pres.1 regionKey dietKey pres.2

/-- Flat meal list collected from a diet bucket: either the array itself,
or the concatenation of the meal-type-keyed arrays with a _mealTypeHint
key spliced onto a copy of each element. -/
def collectMeals (dietData : JVal) : List JVal :=
  match dietData with
  | .jarr l => l
  | .jobj kvs => kvs.flatMap (fun p =>
      match p.2 with
      | .jarr v => v.map (fun m => jsSet (.jobj (jsOwnEntries m)) "_mealTypeHint"
          (if p.1 ∈ CANONICAL_MEAL_TYPES then .jstr p.1 else .jnull))
      | _ => [])
  | _ => []

/-- Loop of validateAndFix over the meals of one diet bucket. -/
def mealsLoop : List JVal → Catalog → String → String → VState → Catalog × VState
  | [], cat, _, _, st => (cat, st)
  | meal :: rest, cat, regionKey, dietKey, st =>
    if truthy meal ∧ isObjLike meal then
      let mealTypeHint := jsGet meal "_mealTypeHint"
      let meal' := jsDelete meal "_mealTypeHint"
      let fres := flattenOptions meal' regionKey dietKey mealTypeHint st
      let pres := placeLoop fres.1 cat regionKey dietKey fres.2
      mealsLoop rest pres.1 regionKey dietKey pres.2
    else mealsLoop rest cat regionKey dietKey st

/-- Raw diet key after the synonym table: DIET_MAPPING[origDiet] || origDiet. -/
def dietMapped (origDiet : String) : String :=
  ((DIET_MAPPING.find? (fun p => p.1 = origDiet)).map Prod.snd).getD origDiet

/-- Canonical diet key a raw diet entry is processed under: the synonym
mapping when canonical, the default Regular otherwise. -/
def dietKeyOf (origDiet : String) : String :=
  if dietMapped origDiet ∉ CANONICAL_DIETS then "Regular" else dietMapped origDiet

/-- State bookkeeping of the diet-key resolution: record the collapse of
an unknown diet to Regular, and count and record a mapped diet key. -/
def dietStateUpd (origDiet : String) (st : VState) : VState :=
  let st := if dietMapped origDiet ∉ CANONICAL_DIETS then
      { st with dietMappings := assocSet st.dietMappings origDiet "Regular" }
    else st
  if origDiet ≠ dietKeyOf origDiet then
    { st with
      dietMappings := assocSet st.dietMappings origDiet (dietKeyOf origDiet)
      stats := { st.stats with dietMappings := st.stats.dietMappings + 1 } }
  else st

/-- Loop of validateAndFix over the diet entries of one region. -/
def dietsLoop : List (String × JVal) → Catalog → String → VState → Catalog × VState
  | [], cat, _, st => (cat, st)
  | (origDiet, dietData) :: rest, cat, regionKey, st =>
    let r := mealsLoop (collectMeals dietData) cat regionKey (dietKeyOf origDiet)
      (dietStateUpd origDiet st)
    dietsLoop rest r.1 regionKey r.2

/-- Canonical region key of a raw region key:
REGION_MAPPING[origRegion] || origRegion. -/
def regionKeyOf (origRegion : String) : String :=
  ((REGION_MAPPING.find? (fun p => p.1 = origRegion)).map Prod.snd).getD origRegion

/-- State bookkeeping of the region-key resolution: count and record a
mapped region key. -/
def regionStateUpd (origRegion : String) (st : VState) : VState :=
  if origRegion ≠ regionKeyOf origRegion then
    { st with
      regionMappings := assocSet st.regionMappings origRegion (regionKeyOf origRegion)
      stats := { st.stats with regionMappings := st.stats.regionMappings + 1 } }
  else st

/-- Loop of validateAndFix over the region entries of the input; the
__meta__ key and unknown regions are skipped. -/
def regionsLoop : List (String × JVal) → Catalog → VState → Catalog × VState
  | [], cat, st => (cat, st)
  | (origRegion, regionData) :: rest, cat, st =>
    if origRegion = "__meta__" then regionsLoop rest cat st
    else if regionKeyOf origRegion ∉ CANONICAL_REGIONS then regionsLoop rest cat st
    else
      let r := dietsLoop (jsOwnEntries (jsOr regionData (.jobj []))) cat
        (regionKeyOf origRegion) (regionStateUpd origRegion st)
      regionsLoop rest r.1 r.2

/-- The __meta__ block attached to the output document. -/
structure MetaBlock where
  fixed_on : String
  script_version : String
  changes : List String
  id_reassignments : List (String × String)
  region_mappings : List (String × String)
  diet_mappings : List (String × String)
  totalBefore : Nat
  totalAfter : Nat

/-- Output document of a run: the canonical catalog plus its __meta__
block (attached in the source as one more key of the same object). -/
structure VOutput where
  data : Catalog
  meta : MetaBlock

/-- The totalAfter reduction of validateAndFix. -/
def totalAfterOf (cat : Catalog) : Nat :=
  CANONICAL_REGIONS.foldl (fun sumR r =>
    sumR + CANONICAL_DIETS.foldl (fun sumD d =>
      sumD + CANONICAL_MEAL_TYPES.foldl (fun s mt =>
        s + (match lookup3 cat r d mt with | some l => l.length | none => 0)) 0) 0) 0

/-- Assembly of the __meta__ block; now models new Date().toISOString(),
the moment at which the run happens. -/
def buildMeta (now : String) (st : VState) (totalAfter : Nat) : MetaBlock :=
  let n1 := st.stats.totalProcessed
  let n2 := st.stats.duplicateIds
  let n3 := st.stats.titlesGenerated
  let n4 := st.stats.regionMappings
  let n5 := st.stats.dietMappings
  let n6 := st.stats.preparationFieldsRemoved
  let n7 := st.stats.optionsFlattened
  let n8 := st.stats.veganViolations.length
  let n9 := st.stats.vegetarianViolations.length
  let changes := ([
    s!"Processed {n1} meals",
    s!"Reassigned {n2} duplicate IDs",
    s!"Generated {n3} missing titles",
    s!"Mapped {n4} regions",
    s!"Mapped {n5} diets",
    s!"Removed {n6} preparation fields",
    s!"Flattened {n7} options arrays",
    s!"Moved {n8} meals from Vegan",
    s!"Moved {n9} meals from Vegetarian"
  ] : List String).filter (fun s => s ≠ "")
  { fixed_on := now, script_version := "tools-1.0.0", changes := changes,
    id_reassignments := st.idReassignments, region_mappings := st.regionMappings,
    diet_mappings := st.dietMappings, totalBefore := st.stats.totalProcessed,
    totalAfter := totalAfter }

/-- Traversal core of MealValidator.validateAndFix starting from a fresh
validator (as the CLI entry point constructs one per run). -/
def runCatalog (inputData : JVal) : Catalog × VState :=
  regionsLoop (jsOwnEntries (jsOr inputData (.jobj []))) initCatalog initState

/-- MealValidator.validateAndFix on a freshly constructed validator:
initialize the canonical buckets, walk the input, and attach the
__meta__ block (now being the wall-clock timestamp written into it). -/
def validateAndFix (now : String) (inputData : JVal) : VOutput :=
  let r := runCatalog inputData
  { data := r.1, meta := buildMeta now r.2 (totalAfterOf r.1) }

/-! Record enumeration of a catalog, used to state the global invariants. -/

/-- Records of the meal-type buckets of one diet entry. -/
def recsOfMts (md : List (String × List CanonRecord)) : List CanonRecord :=
  md.flatMap (fun me => me.2)

/-- Records of one region entry, tagged with the diet key they are
stored under. -/
def taggedOfDiets (rd : List (String × List (String × List CanonRecord))) :
    List (String × CanonRecord) :=
  rd.flatMap (fun de => (recsOfMts de.2).map (fun rec => (de.1, rec)))

/-- Every record of the catalog, tagged with the diet key of the bucket
it is stored under. -/
def taggedRecords (cat : Catalog) : List (String × CanonRecord) :=
  cat.flatMap (fun re => taggedOfDiets re.2)

/-- Ids of all records stored in the catalog. -/
def allIds (cat : Catalog) : List String :=
  (taggedRecords cat).map (fun p => p.2.id)

/-- Key skeleton of a catalog: regions, their diet keys, and their
meal-type keys, record lists erased. -/
def catShape (cat : Catalog) : List (String × List (String × List String)) :=
  cat.map (fun re => (re.1, re.2.map (fun de => (de.1, de.2.map (fun me => me.1)))))

/-- The canonical grid every output catalog must carry. -/
def gridShape : List (String × List (String × List String)) :=
  CANONICAL_REGIONS.map (fun r => (r, CANONICAL_DIETS.map (fun d => (d, CANONICAL_MEAL_TYPES))))

/-! Specification-side comparators and record predicates. -/

/-- String content of a value that the canonicity hypotheses force to be
a string. -/
def asStringJ : JVal → String
  | .jstr s => s
  | _ => ""

/-- Number content of a value that the canonicity hypotheses force to be
a number. -/
def asNumJ : JVal → JNum
  | .jnum n => n
  | _ => .val 0

/-- Record equal field-for-field to an already-canonical input object
except for the id.  This definition follows the wording of the
round-trip idempotence property of the spec, as the comparator the
normalizer output is checked against; it is not a translation of source
code. -/
def extractCanon (m : JVal) (newId : String) : CanonRecord :=
  { id := newId
    title := asStringJ (jsGet m "title")
    mealType := asStringJ (jsGet m "mealType")
    calories := asNumJ (jsGet m "calories")
    protein := asNumJ (jsGet m "protein")
    carbs := asNumJ (jsGet m "carbs")
    fat := asNumJ (jsGet m "fat")
    fiber := asNumJ (jsGet m "fiber")
    region := asStringJ (jsGet m "region")
    serving_size := match jsGet m "serving_size" with | .jstr s => some s | _ => none
    foods := match jsGet m "foods" with | .undef => none | v => some v
    ingredients := match jsGet m "ingredients" with | .jstr s => some s | _ => none
    tags := match jsGet m "tags" with | .jarr l => some l | _ => none
    diets := match jsGet m "diets" with | .jarr l => l | _ => [] }

/-- All five numeric fields of a record are actual numbers, not NaN. -/
def recNonNan (r : CanonRecord) : Prop :=
  r.calories ≠ .nan ∧ r.protein ≠ .nan ∧ r.carbs ≠ .nan ∧ r.fat ≠ .nan ∧ r.fiber ≠ .nan

/-! Concrete documents and records used by witnesses and counterexamples. -/

/-- Input catalog with a single Regular meal carrying negative calories. -/
def negCaloriesDoc : JVal :=
  .jobj [("India", .jobj [("Regular", .jarr
    [.jobj [("calories", .jnum (.val (-5))), ("title", .jstr "x")]])])]

/-- Input catalog with a single Vegan meal titled "milk". -/
def milkVeganDoc : JVal :=
  .jobj [("India", .jobj [("Vegan", .jarr [.jobj [("title", .jstr "milk")]])])]

/-- Input catalog with a single Vegan meal titled "milk chicken". -/
def milkChickenVeganDoc : JVal :=
  .jobj [("India", .jobj [("Vegan", .jarr [.jobj [("title", .jstr "milk chicken")]])])]

/-- The empty input document. -/
def emptyDoc : JVal := .jobj []

/-- An already-canonical meal object. -/
def canonMealObj : JVal :=
  .jobj [("id", .jstr "42"), ("title", .jstr "Dal"), ("mealType", .jstr "lunch"),
    ("calories", .jnum (.val 200)), ("protein", .jnum (.val 10)),
    ("carbs", .jnum (.val 30)), ("fat", .jnum (.val 5)), ("fiber", .jnum (.val 4)),
    ("region", .jstr "India"), ("diets", .jarr [.jstr "Vegetarian"])]

/-- A meal object with an empty options array. -/
def emptyOptionsObj : JVal := .jobj [("id", .jstr "7"), ("options", .jarr [])]

/-- A meal object canonical in the sense listed by the round-trip claim
(region equals the region key, five plain numeric fields, non-empty
non-placeholder title, diets containing the diet key) whose title
carries surrounding whitespace. -/
def untrimmedMealObj : JVal :=
  .jobj [("id", .jstr "7"), ("title", .jstr " Rice "), ("mealType", .jstr "lunch"),
    ("calories", .jnum (.val 200)), ("protein", .jnum (.val 10)),
    ("carbs", .jnum (.val 30)), ("fat", .jnum (.val 5)), ("fiber", .jnum (.val 4)),
    ("region", .jstr "India"), ("diets", .jarr [.jstr "Vegetarian"])]

/-- A normalized Vegan record whose only violating term is milk. -/
def milkRec : CanonRecord :=
  { id := "1", title := "milk", mealType := "lunch",
    calories := .val 0, protein := .val 0, carbs := .val 0, fat := .val 0, fiber := .val 0,
    region := "India", serving_size := none, foods := none, ingredients := none,
    tags := none, diets := [.jstr "Vegan"] }

/-- A normalized Vegetarian record containing the violating term fish. -/
def fishRec : CanonRecord :=
  { id := "9", title := "fish stew", mealType := "dinner",
    calories := .val 0, protein := .val 0, carbs := .val 0, fat := .val 0, fiber := .val 0,
    region := "India", serving_size := none, foods := none, ingredients := none,
    tags := none, diets := [.jstr "Vegetarian"] }

/-- Run invariant carried over the whole traversal: the catalog keeps
the canonical grid shape, the id registry holds no duplicates, every
stored record's id is registered, all stored ids are pairwise distinct,
and every stored record carries its bucket's diet key in its diets array
and plain numbers in its five numeric fields. -/
def INV (cat : Catalog) (st : VState) : Prop :=
  catShape cat = gridShape ∧
  st.usedIds.Nodup ∧
  (∀ i ∈ allIds cat, i ∈ st.usedIds) ∧
  (allIds cat).Nodup ∧
  (∀ p ∈ taggedRecords cat, JVal.jstr p.1 ∈ p.2.diets ∧ recNonNan p.2)

/-! ### Basic lemmas about the helpers -/

theorem jeqStr_eq_true {v : JVal} {s : String} : jeqStr v s = true ↔ v = .jstr s := by
  cases v <;> simp [jeqStr]

theorem trimJs_toLowerJs_empty : trimJs (toLowerJs "") = "" := rfl

/-! ### C5: totality of parseNumeric -/

theorem parseNumeric_fst_ne_nan (v : JVal) (fieldName mealId : String) (st : VState) :
    (parseNumeric v fieldName mealId st).1 ≠ JNum.nan := by
  cases v with
  | jstr s =>
    by_cases hs : s = ""
    · subst hs; simp [parseNumeric]
    · simp only [parseNumeric, if_neg hs]
      cases parseFloatJs (cleanNumeric s) <;> simp
  | jnum n => cases n <;> simp [parseNumeric]
  | _ => simp [parseNumeric]

/-- C5.  parseNumeric is total: on every input it never yields NaN;
null, undefined, the empty string and a native NaN number all yield 0. -/
theorem parseNumeric_never_nan :
    (∀ v fieldName mealId st, (parseNumeric v fieldName mealId st).1 ≠ JNum.nan) ∧
    (∀ fieldName mealId st, (parseNumeric .jnull fieldName mealId st).1 = .val 0) ∧
    (∀ fieldName mealId st, (parseNumeric .undef fieldName mealId st).1 = .val 0) ∧
    (∀ fieldName mealId st, (parseNumeric (.jstr "") fieldName mealId st).1 = .val 0) ∧
    (∀ fieldName mealId st, (parseNumeric (.jnum .nan) fieldName mealId st).1 = .val 0) :=
  ⟨parseNumeric_fst_ne_nan, fun _ _ _ => rfl, fun _ _ _ => rfl, fun _ _ _ => rfl,
   fun _ _ _ => rfl⟩

/-! ### C7: explicit meal-type normalization -/

theorem normalizeMealType_explicit_eq (s : String) (hs : s ≠ "") (title tags : JVal) :
    normalizeMealType (.jstr s) title tags =
      (if trimJs (toLowerJs s) ∈ CANONICAL_MEAL_TYPES then trimJs (toLowerJs s)
       else if trimJs (toLowerJs s) = "snack" then "snacks"
       else if trimJs (toLowerJs s) = "supper" then "dinner"
       else
         match CANONICAL_MEAL_TYPES.find? (fun t => strIncludes (trimJs (toLowerJs s)) t) with
         | some t => t
         | none => "lunch") := by
  have ht : truthy (.jstr s) = true := by simp [truthy, hs]
  simp only [normalizeMealType, jsToString, ht, not_true, if_false]

/-- C7 (amended).  After lower-casing and trimming an explicit meal type,
the four canonical values pass through, snack maps to snacks, supper maps
to dinner, and every other explicit value maps to the first canonical
type it contains as a substring, or to lunch when it contains none. -/
theorem normalizeMealType_explicit :
    (∀ s title tags, trimJs (toLowerJs s) ∈ CANONICAL_MEAL_TYPES →
      normalizeMealType (.jstr s) title tags = trimJs (toLowerJs s)) ∧
    (∀ s title tags, trimJs (toLowerJs s) = "snack" →
      normalizeMealType (.jstr s) title tags = "snacks") ∧
    (∀ s title tags, trimJs (toLowerJs s) = "supper" →
      normalizeMealType (.jstr s) title tags = "dinner") ∧
    (∀ s title tags, s ≠ "" → trimJs (toLowerJs s) ∉ CANONICAL_MEAL_TYPES →
      trimJs (toLowerJs s) ≠ "snack" → trimJs (toLowerJs s) ≠ "supper" →
      normalizeMealType (.jstr s) title tags =
        ((CANONICAL_MEAL_TYPES.find? (fun t => strIncludes (trimJs (toLowerJs s)) t)).getD
          "lunch")) := by
  have hne : ∀ s : String, trimJs (toLowerJs s) ≠ "" → s ≠ "" := by
    intro s h hs
    subst hs
    exact h trimJs_toLowerJs_empty
  refine ⟨?_, ?_, ?_, ?_⟩
  · intro s title tags h
    have hs : s ≠ "" := by
      refine hne s ?_
      intro he
      rw [he] at h
      simp [CANONICAL_MEAL_TYPES] at h
    rw [normalizeMealType_explicit_eq s hs, if_pos h]
  · intro s title tags h
    have hs : s ≠ "" := hne s (by rw [h]; decide)
    have hmem : trimJs (toLowerJs s) ∉ CANONICAL_MEAL_TYPES := by
      rw [h]; decide
    rw [normalizeMealType_explicit_eq s hs, if_neg hmem, if_pos h]
  · intro s title tags h
    have hs : s ≠ "" := hne s (by rw [h]; decide)
    have hmem : trimJs (toLowerJs s) ∉ CANONICAL_MEAL_TYPES := by
      rw [h]; decide
    have hsn : trimJs (toLowerJs s) ≠ "snack" := by rw [h]; decide
    rw [normalizeMealType_explicit_eq s hs, if_neg hmem, if_neg hsn, if_pos h]
  · intro s title tags hs hmem hsn hsu
    rw [normalizeMealType_explicit_eq s hs, if_neg hmem, if_neg hsn, if_neg hsu]
    cases hf : CANONICAL_MEAL_TYPES.find? (fun t => strIncludes (trimJs (toLowerJs s)) t) <;>
      simp [hf]

/-- C7 counterexample.  The explicit value "my dinner" is neither
canonical nor snack nor supper after lower-casing and trimming, yet it is
mapped to dinner, not to lunch. -/
theorem normalizeMealType_counterexample :
    normalizeMealType (.jstr "my dinner") (.jstr "") (.jarr []) = "dinner" ∧
    trimJs (toLowerJs "my dinner") ∉ CANONICAL_MEAL_TYPES ∧
    trimJs (toLowerJs "my dinner") ≠ "snack" ∧
    trimJs (toLowerJs "my dinner") ≠ "supper" ∧
    "dinner" ≠ "lunch" := by decide

/-- C7 witness: the amended theorem applied at concrete explicit values. -/
theorem normalizeMealType_explicit_witness :
    normalizeMealType (.jstr " DINNER ") (.jstr "") (.jarr []) = "dinner" ∧
    normalizeMealType (.jstr "Snack") (.jstr "") (.jarr []) = "snacks" ∧
    normalizeMealType (.jstr "supper") (.jstr "") (.jarr []) = "dinner" ∧
    normalizeMealType (.jstr "brunch-dinner") (.jstr "") (.jarr []) = "dinner" := by
  refine ⟨?_, ?_, ?_, ?_⟩
  · have h := normalizeMealType_explicit.1 " DINNER " (.jstr "") (.jarr []) (by decide)
    rw [h]; decide
  · exact normalizeMealType_explicit.2.1 "Snack" (.jstr "") (.jarr []) (by decide)
  · exact normalizeMealType_explicit.2.2.1 "supper" (.jstr "") (.jarr []) (by decide)
  · have h := normalizeMealType_explicit.2.2.2 "brunch-dinner" (.jstr "") (.jarr [])
      (by decide) (by decide) (by decide) (by decide)
    rw [h]; decide

/-- C9.  A record whose options field is the empty array flattens to the
empty list (the parent record is not emitted), while an object record
with no options field at all yields exactly one normalized record. -/
theorem flattenOptions_empty_absent :
    (∀ meal regionKey dietKey hint st, jsGet meal "options" = .jarr [] →
      (flattenOptions meal regionKey dietKey hint st).1 = []) ∧
    (∀ kvs regionKey dietKey hint st, jsGet (.jobj kvs) "options" = .undef →
      ((flattenOptions (.jobj kvs) regionKey dietKey hint st).1).length = 1) := by
  constructor
  · intro meal regionKey dietKey hint st h
    simp [flattenOptions, h, flattenOptionsLoop]
  · intro kvs regionKey dietKey hint st h
    simp only [flattenOptions, h]
    simp [normalizeMeal, truthy, isObjLike]

/-! ### State-independence of the value components of the coercers -/

theorem parseNumeric_fst_congr (v : JVal) (f1 f2 i1 i2 : String) (st1 st2 : VState) :
    (parseNumeric v f1 i1 st1).1 = (parseNumeric v f2 i2 st2).1 := by
  cases v with
  | jnum n => cases n <;> rfl
  | jstr s =>
    by_cases hs : s = ""
    · subst hs; rfl
    · simp only [parseNumeric, if_neg hs]
      cases parseFloatJs (cleanNumeric s) <;> rfl
  | _ => rfl

theorem generateTitle_fst_congr (meal : JVal) (region diet : String) (index : Nat)
    (st1 st2 : VState) :
    (generateTitle meal region diet index st1).1 = (generateTitle meal region diet index st2).1 := by
  unfold generateTitle
  split
  · rfl
  · cases foodsTitle meal
    · cases ingredientsTitle meal <;> rfl
    · rfl

theorem getUniqueId_fst_congr (v : JVal) (st1 st2 : VState)
    (hu : st1.usedIds = st2.usedIds) (hn : st1.nextId = st2.nextId) :
    (getUniqueId v st1).1 = (getUniqueId v st2).1 := by
  cases v <;> simp only [getUniqueId, freshId, hu, hn] <;> split <;> rfl

/-! ### Shape lemmas: the canonical grid is created once and never altered -/

theorem map_updA_of_val {α β : Type} (k : String) (f : α → α) (v : α → β)
    (h : ∀ a, v (f a) = v a) :
    ∀ l : List (String × α),
      (updA k f l).map (fun p => (p.1, v p.2)) = l.map (fun p => (p.1, v p.2))
  | [] => rfl
  | (k', a) :: t => by
    by_cases hk : k' = k
    · simp [updA, hk, h]
    · simp [updA, hk, map_updA_of_val k f v h t]

theorem updA_map_fst {α : Type} (k : String) (f : α → α) :
    ∀ l : List (String × α), (updA k f l).map Prod.fst = l.map Prod.fst
  | [] => rfl
  | (k', a) :: t => by
    by_cases hk : k' = k
    · simp [updA, hk]
    · simp [updA, hk, updA_map_fst k f t]

theorem catShape_pushCat (cat : Catalog) (r d mt : String) (rec : CanonRecord) :
    catShape (pushCat cat r d mt rec) = catShape cat := by
  unfold catShape pushCat
  apply map_updA_of_val
  intro rd
  apply map_updA_of_val
  intro md
  have h := updA_map_fst mt (fun l => l ++ [rec]) md
  simpa using h

theorem catShape_placeNormalized (cat : Catalog) (regionKey dietKey : String)
    (m : CanonRecord) (st : VState) :
    catShape (placeNormalized cat regionKey dietKey m st).1 = catShape cat := by
  by_cases hv : checkDietViolations m dietKey ≠ []
  · by_cases h1 : dietKey = "Vegan"
    · subst h1; simp [placeNormalized, hv, catShape_pushCat]
    · by_cases h2 : dietKey = "Vegetarian"
      · subst h2; simp [placeNormalized, hv, h1, catShape_pushCat]
      · simp [placeNormalized, hv, h1, h2, catShape_pushCat]
  · simp [placeNormalized, hv, catShape_pushCat]

theorem catShape_placeLoop :
    ∀ (recs : List CanonRecord) (cat : Catalog) (regionKey dietKey : String) (st : VState),
      catShape (placeLoop recs cat regionKey dietKey st).1 = catShape cat
  | [], _, _, _, _ => rfl
  | m :: rest, cat, regionKey, dietKey, st => by
    rw [placeLoop, catShape_placeLoop rest _ regionKey dietKey _,
      catShape_placeNormalized]

theorem catShape_mealsLoop :
    ∀ (meals : List JVal) (cat : Catalog) (regionKey dietKey : String) (st : VState),
      catShape (mealsLoop meals cat regionKey dietKey st).1 = catShape cat
  | [], _, _, _, _ => rfl
  | meal :: rest, cat, regionKey, dietKey, st => by
    rw [mealsLoop]
    split
    · rw [catShape_mealsLoop rest _ regionKey dietKey _, catShape_placeLoop]
    · rw [catShape_mealsLoop rest _ regionKey dietKey _]

theorem catShape_dietsLoop :
    ∀ (entries : List (String × JVal)) (cat : Catalog) (regionKey : String) (st : VState),
      catShape (dietsLoop entries cat regionKey st).1 = catShape cat
  | [], _, _, _ => rfl
  | (origDiet, dietData) :: rest, cat, regionKey, st => by
    rw [dietsLoop, catShape_dietsLoop rest _ regionKey _, catShape_mealsLoop]

theorem catShape_regionsLoop :
    ∀ (entries : List (String × JVal)) (cat : Catalog) (st : VState),
      catShape (regionsLoop entries cat st).1 = catShape cat
  | [], _, _ => rfl
  | (origRegion, regionData) :: rest, cat, st => by
    rw [regionsLoop]
    by_cases hm : origRegion = "__meta__"
    · rw [if_pos hm]
      exact catShape_regionsLoop rest cat st
    · rw [if_neg hm]
      by_cases hr : regionKeyOf origRegion ∉ CANONICAL_REGIONS
      · rw [if_pos hr]
        exact catShape_regionsLoop rest cat st
      · rw [if_neg hr, catShape_regionsLoop rest, catShape_dietsLoop]

theorem catShape_initCatalog : catShape initCatalog = gridShape := by decide

theorem catShape_runCatalog (input : JVal) :
    catShape (runCatalog input).1 = gridShape := by
  rw [runCatalog, catShape_regionsLoop, catShape_initCatalog]

/-! ### Lookup lemmas from the shape invariant -/

theorem lookupA_shape {α β : Type} (v : α → β) :
    ∀ (l : List (String × α)) (s : List (String × β)),
      l.map (fun p => (p.1, v p.2)) = s → ∀ k, (lookupA l k).map v = lookupA s k
  | [], s, h, k => by subst h; rfl
  | (k', a) :: t, s, h, k => by
    subst h
    by_cases hk : k' = k
    · simp [lookupA, hk]
    · simpa [lookupA, hk] using lookupA_shape v t _ rfl k

theorem lookupA_map_const {α : Type} (c : α) :
    ∀ (keys : List String) (k : String) (x : α),
      lookupA (keys.map (fun r => (r, c))) k = some x → x = c
  | [], _, _, h => by simp [lookupA] at h
  | r :: t, k, x, h => by
    by_cases hk : r = k
    · rw [List.map_cons] at h
      simp only [lookupA, if_pos hk] at h
      exact (Option.some.inj h).symm
    · rw [List.map_cons] at h
      simp only [lookupA, if_neg hk] at h
      exact lookupA_map_const c t k x h

theorem lookupA_isSome_of_mem_keys {α : Type} :
    ∀ (l : List (String × α)) (k : String), k ∈ l.map Prod.fst → (lookupA l k).isSome = true
  | [], k, h => by simp at h
  | (k', a) :: t, k, h => by
    by_cases hk : k' = k
    · simp [lookupA, hk]
    · simp only [List.map_cons, List.mem_cons] at h
      rcases h with h | h
      · exact absurd h.symm hk
      · simpa [lookupA, hk] using lookupA_isSome_of_mem_keys t k h

theorem lookup3_isSome_of_shape (cat : Catalog) (h : catShape cat = gridShape)
    (r d mt : String) (hr : r ∈ CANONICAL_REGIONS) (hd : d ∈ CANONICAL_DIETS)
    (hmt : mt ∈ CANONICAL_MEAL_TYPES) : (lookup3 cat r d mt).isSome = true := by
  unfold catShape at h
  have h1 := lookupA_shape (fun rd => rd.map (fun de => (de.1, de.2.map (fun me => me.1))))
    cat gridShape h r
  have hg : (lookupA gridShape r).isSome = true := by
    apply lookupA_isSome_of_mem_keys
    simpa [gridShape, List.map_map, Function.comp] using hr
  rcases Option.isSome_iff_exists.mp hg with ⟨X, hX⟩
  rw [hX] at h1
  rcases Option.map_eq_some'.mp h1 with ⟨rd, hrd, hvrd⟩
  have hXc : X = CANONICAL_DIETS.map (fun d => (d, CANONICAL_MEAL_TYPES)) :=
    lookupA_map_const _ CANONICAL_REGIONS r X (by simpa [gridShape] using hX)
  subst hXc
  have h2 := lookupA_shape (fun md => md.map Prod.fst) rd _ (by simpa using hvrd) d
  have hg2 : (lookupA (CANONICAL_DIETS.map (fun d => (d, CANONICAL_MEAL_TYPES))) d).isSome
      = true := by
    apply lookupA_isSome_of_mem_keys
    simpa [List.map_map, Function.comp] using hd
  rcases Option.isSome_iff_exists.mp hg2 with ⟨X2, hX2⟩
  rw [hX2] at h2
  rcases Option.map_eq_some'.mp h2 with ⟨md, hmd, hvmd⟩
  have hX2c : X2 = CANONICAL_MEAL_TYPES := lookupA_map_const _ CANONICAL_DIETS d X2 hX2
  subst hX2c
  have h3 : (lookupA md mt).isSome = true := by
    apply lookupA_isSome_of_mem_keys
    rw [hvmd]
    exact hmt
  simp only [lookup3, hrd, hmd]
  exact h3

/-! ### C10: the full canonical grid is always present -/

/-- C10.  For every input and timestamp, the output catalog's key
skeleton is exactly the canonical grid: all 9 regions, each with all 7
diets, each with all 4 meal-type buckets bound to (possibly empty)
arrays, and every canonical triple is reachable by lookup. -/
theorem validateAndFix_grid_complete (now : String) (input : JVal) :
    catShape (validateAndFix now input).data = gridShape ∧
    (∀ r d mt, r ∈ CANONICAL_REGIONS → d ∈ CANONICAL_DIETS → mt ∈ CANONICAL_MEAL_TYPES →
      (lookup3 (validateAndFix now input).data r d mt).isSome = true) := by
  have h : catShape (validateAndFix now input).data = gridShape := catShape_runCatalog input
  exact ⟨h, fun r d mt hr hd hmt => lookup3_isSome_of_shape _ h r d mt hr hd hmt⟩

/-- C10 witness: the grid statement applied to the empty document and a
concrete canonical triple. -/
theorem validateAndFix_grid_complete_witness :
    catShape (validateAndFix "T" emptyDoc).data = gridShape ∧
    (lookup3 (validateAndFix "T" emptyDoc).data "India" "Regular" "lunch").isSome = true :=
  ⟨(validateAndFix_grid_complete "T" emptyDoc).1,
    (validateAndFix_grid_complete "T" emptyDoc).2 "India" "Regular" "lunch"
      (by decide) (by decide) (by decide)⟩

/-! ### C2: determinism up to the wall-clock timestamp -/

/-- C2 counterexample.  Two runs of the engine on the identical (empty)
input document at different wall-clock instants produce different output
documents: the __meta__ block embeds the run timestamp. -/
theorem validateAndFix_not_time_invariant :
    validateAndFix "2024-01-01T00:00:00.000Z" emptyDoc ≠
      validateAndFix "2024-01-02T00:00:00.000Z" emptyDoc := by
  intro h
  have h2 : ("2024-01-01T00:00:00.000Z" : String) = "2024-01-02T00:00:00.000Z" :=
    congrArg (fun o => o.meta.fixed_on) h
  exact absurd h2 (by decide)

/-- C2 (amended).  Running the engine on identical input documents
yields identical output data and identical id allocations — and in fact
identical metadata in every field except the fixed_on timestamp — for
any pair of run instants. -/
theorem validateAndFix_deterministic (t1 t2 : String) (input : JVal) :
    (validateAndFix t1 input).data = (validateAndFix t2 input).data ∧
    (validateAndFix t1 input).meta.id_reassignments =
      (validateAndFix t2 input).meta.id_reassignments ∧
    (validateAndFix t1 input).meta.region_mappings =
      (validateAndFix t2 input).meta.region_mappings ∧
    (validateAndFix t1 input).meta.diet_mappings =
      (validateAndFix t2 input).meta.diet_mappings ∧
    (validateAndFix t1 input).meta.changes = (validateAndFix t2 input).meta.changes ∧
    (validateAndFix t1 input).meta.totalBefore = (validateAndFix t2 input).meta.totalBefore ∧
    (validateAndFix t1 input).meta.totalAfter = (validateAndFix t2 input).meta.totalAfter ∧
    (validateAndFix t1 input).meta.script_version =
      (validateAndFix t2 input).meta.script_version :=
  ⟨rfl, rfl, rfl, rfl, rfl, rfl, rfl, rfl⟩

/-- C9 witness: a concrete record with an empty options array flattens to
nothing, and a concrete record without options yields one record. -/
theorem flattenOptions_empty_absent_witness :
    jsGet emptyOptionsObj "options" = .jarr [] ∧
    (flattenOptions emptyOptionsObj "India" "Regular" .jnull initState).1 = [] ∧
    jsGet canonMealObj "options" = .undef ∧
    ((flattenOptions canonMealObj "India" "Vegetarian" .jnull initState).1).length = 1 := by
  refine ⟨rfl, ?_, rfl, ?_⟩
  · exact flattenOptions_empty_absent.1 emptyOptionsObj "India" "Regular" .jnull initState rfl
  · exact flattenOptions_empty_absent.2 _ "India" "Vegetarian" .jnull initState rfl

/-! ### C8: round-trip idempotence on already-canonical records -/

theorem canonical_mealType_fixed (mt : String) (hmtc : mt ∈ CANONICAL_MEAL_TYPES) :
    ∀ title tags, normalizeMealType (.jstr mt) title tags = mt := by
  have h4 : mt = "breakfast" ∨ mt = "lunch" ∨ mt = "dinner" ∨ mt = "snacks" := by
    simpa [CANONICAL_MEAL_TYPES] using hmtc
  rcases h4 with rfl | rfl | rfl | rfl <;> intro title tags <;>
    rw [normalizeMealType_explicit_eq _ (by decide)] <;> decide

/-- C8 counterexample.  The meal object with title " Rice " meets every
canonicity condition the claim lists (region equals the region key, five
plain numeric fields, non-empty non-placeholder title, diets containing
the diet key) and its unused id 7 is kept, yet normalization does not
reproduce it field for field: generateTitle re-trims the title, so the
emitted record's title is "Rice" while the input's title is " Rice ". -/
theorem normalizeMeal_not_roundtrip :
    ((normalizeMeal untrimmedMealObj "India" "Vegetarian" .jnull 0 initState).1.map
        CanonRecord.title) = some "Rice" ∧
    (extractCanon untrimmedMealObj
        (getUniqueId (jsGet untrimmedMealObj "id") initState).1).title = " Rice " ∧
    (getUniqueId (jsGet untrimmedMealObj "id") initState).1 = "7" ∧
    ("Rice" : String) ≠ " Rice " := by
  refine ⟨rfl, rfl, rfl, by decide⟩

/-- C8 (amended).  Normalizing an already-canonical record (correct region field,
non-empty trimmed non-placeholder title, canonical explicit meal type,
five plain numeric fields, optional fields of the canonical shapes, and
a diets array already containing the diet key) reproduces the record
field for field, except that the id is whatever the identifier registry
returns for the original id (a remap only happens when the original id
was already used). -/
theorem normalizeMeal_roundtrip
    (kvs : List (String × JVal)) (regionKey dietKey : String) (hint : JVal) (index : Nat)
    (st : VState) (t mt : String) (c p b f fb : ℚ) (ds : List JVal)
    (htitle : jsGet (.jobj kvs) "title" = .jstr t)
    (ht1 : t ≠ "") (ht2 : trimJs t = t) (ht3 : isOptionPlaceholder t = false)
    (hmt : jsGet (.jobj kvs) "mealType" = .jstr mt)
    (hmtc : mt ∈ CANONICAL_MEAL_TYPES)
    (hcal : jsGet (.jobj kvs) "calories" = .jnum (.val c))
    (hpro : jsGet (.jobj kvs) "protein" = .jnum (.val p))
    (hcar : jsGet (.jobj kvs) "carbs" = .jnum (.val b))
    (hfat : jsGet (.jobj kvs) "fat" = .jnum (.val f))
    (hfib : jsGet (.jobj kvs) "fiber" = .jnum (.val fb))
    (hreg : jsGet (.jobj kvs) "region" = .jstr regionKey)
    (hserv : jsGet (.jobj kvs) "serving_size" = .undef ∨
      ∃ s, jsGet (.jobj kvs) "serving_size" = .jstr s ∧ s ≠ "")
    (hfoods : jsGet (.jobj kvs) "foods" = .undef ∨ ∃ xs, jsGet (.jobj kvs) "foods" = .jarr xs)
    (hing : jsGet (.jobj kvs) "ingredients" = .undef ∨
      ∃ s, jsGet (.jobj kvs) "ingredients" = .jstr s ∧ s ≠ "")
    (htags : jsGet (.jobj kvs) "tags" = .undef ∨ ∃ l, jsGet (.jobj kvs) "tags" = .jarr l)
    (hdiets : jsGet (.jobj kvs) "diets" = .jarr ds)
    (hdk : ds.any (fun d => jeqStr d dietKey) = true) :
    (normalizeMeal (.jobj kvs) regionKey dietKey hint index st).1 =
      some (extractCanon (.jobj kvs) (getUniqueId (jsGet (.jobj kvs) "id") st).1) := by
  have hmtne : mt ≠ "" := by
    have h4 : mt = "breakfast" ∨ mt = "lunch" ∨ mt = "dinner" ∨ mt = "snacks" := by
      simpa [CANONICAL_MEAL_TYPES] using hmtc
    rcases h4 with rfl | rfl | rfl | rfl <;> decide
  have hex : existingTitle (.jobj kvs) = t := by
    rw [existingTitle, htitle]
    simp [jsOr, truthy, ht1, jsToString, ht2]
  have htval : ∀ st', (generateTitle (.jobj kvs) regionKey dietKey index st').1 = t := by
    intro st'
    rw [generateTitle, if_pos ⟨by rw [hex]; exact ht1, by rw [hex, ht3]; simp⟩]
    exact hex
  have hmtval : ∀ a b, normalizeMealType (jsOr (.jstr mt) hint) a b = mt := by
    intro a b
    rw [show jsOr (JVal.jstr mt) hint = .jstr mt by simp [jsOr, truthy, hmtne]]
    exact canonical_mealType_fixed mt hmtc a b
  have hid : ∀ s1 s2 : Stats,
      (getUniqueId (jsGet (.jobj kvs) "id")
        (if ((jsKeys (.jobj kvs)).any fun k => strIncludes (toLowerJs k) "preparation") = true
          then { st with stats := s1 } else { st with stats := s2 })).1 =
      (getUniqueId (jsGet (.jobj kvs) "id") st).1 := by
    intro s1 s2
    apply getUniqueId_fst_congr <;> split <;> rfl
  simp only [normalizeMeal, truthy, isObjLike]
  rw [if_neg (by simp)]
  simp only [htval, hcal, hpro, hcar, hfat, hfib, hdiets, hdk,
    jsNullish, parseNumeric, extractCanon, asStringJ, asNumJ, htitle, hmt, hreg,
    if_true, Option.some.injEq, CanonRecord.mk.injEq]
  refine ⟨hid _ _, by trivial, hmtval _ _, by trivial, by trivial, by trivial, by trivial,
    by trivial, by trivial, ?_, ?_, ?_, ?_, by trivial⟩
  · rcases hserv with hserv | ⟨sv, hserv, hsvne⟩
    · simp [hserv, truthy]
    · simp [hserv, truthy, jsToString, hsvne]
  · rcases hfoods with hfoods | ⟨fx, hfoods⟩ <;> simp [hfoods, truthy]
  · rcases hing with hing | ⟨ig, hing, higne⟩
    · simp [hing, truthy]
    · simp [hing, truthy, jsToString, higne]
  · rcases htags with htags | ⟨tg, htags⟩ <;> simp [htags, truthy]

/-- C8 witness: the round-trip theorem applied to a concrete canonical
meal object; its unused original id 42 is kept. -/
theorem normalizeMeal_roundtrip_witness :
    (normalizeMeal canonMealObj "India" "Vegetarian" .jnull 0 initState).1 =
      some (extractCanon canonMealObj (getUniqueId (jsGet canonMealObj "id") initState).1) ∧
    (getUniqueId (jsGet canonMealObj "id") initState).1 = "42" := by
  constructor
  · exact normalizeMeal_roundtrip _ "India" "Vegetarian" .jnull 0 initState
      "Dal" "lunch" 200 10 30 5 4 [.jstr "Vegetarian"]
      rfl (by decide) (by decide) (by decide) rfl (by decide)
      rfl rfl rfl rfl rfl rfl
      (Or.inl rfl) (Or.inl rfl) (Or.inl rfl) (Or.inl rfl)
      rfl (by decide)
  · rfl

/-! ### Injectivity of decimal id strings -/

theorem digitChar_inj : ∀ m < 10, ∀ n < 10, digitChar m = digitChar n → m = n := by decide

theorem natDigits_ne_nil (n : Nat) : natDigits n ≠ [] := by
  rw [natDigits]
  split <;> simp

theorem append_singleton_inj {α : Type} {l1 l2 : List α} {a b : α}
    (h : l1 ++ [a] = l2 ++ [b]) : l1 = l2 ∧ a = b := by
  have hr := congrArg List.reverse h
  simp only [List.reverse_append, List.reverse_cons, List.reverse_nil, List.nil_append,
    List.singleton_append] at hr
  obtain ⟨hab, hl⟩ := List.cons.inj hr
  refine ⟨?_, hab⟩
  have := congrArg List.reverse hl
  simpa using this

theorem natDigits_lt {n : Nat} (h : n < 10) : natDigits n = [digitChar n] := by
  rw [natDigits]
  exact dif_pos h

theorem natDigits_ge {n : Nat} (h : ¬ n < 10) :
    natDigits n = natDigits (n / 10) ++ [digitChar (n % 10)] := by
  rw [natDigits]
  exact dif_neg h

theorem natDigits_inj : ∀ n m : Nat, natDigits n = natDigits m → n = m := by
  intro n
  induction n using Nat.strong_induction_on with
  | _ n ih =>
    intro m h
    by_cases hn : n < 10 <;> by_cases hm : m < 10
    · rw [natDigits_lt hn, natDigits_lt hm] at h
      exact digitChar_inj n hn m hm (List.cons.inj h).1
    · rw [natDigits_lt hn, natDigits_ge hm] at h
      have := congrArg List.length h
      simp at this
      have h0 := natDigits_ne_nil (m / 10)
      rcases List.exists_cons_of_ne_nil h0 with ⟨c, cs, hc⟩
      rw [hc] at this
      simp at this
    · rw [natDigits_ge hn, natDigits_lt hm] at h
      have := congrArg List.length h
      simp at this
      have h0 := natDigits_ne_nil (n / 10)
      rcases List.exists_cons_of_ne_nil h0 with ⟨c, cs, hc⟩
      rw [hc] at this
      simp at this
    · rw [natDigits_ge hn, natDigits_ge hm] at h
      obtain ⟨hdiv, hmod⟩ := append_singleton_inj h
      have hdiv2 : n / 10 = m / 10 :=
        ih (n / 10) (Nat.div_lt_self (by omega) (by omega)) (m / 10) hdiv
      have hmod2 : n % 10 = m % 10 :=
        digitChar_inj (n % 10) (Nat.mod_lt n (by omega)) (m % 10) (Nat.mod_lt m (by omega)) hmod
      have e1 := Nat.div_add_mod n 10
      have e2 := Nat.div_add_mod m 10
      omega

theorem natToString_inj : ∀ n m : Nat, natToString n = natToString m → n = m := by
  intro n m h
  have h2 : natDigits n = natDigits m := congrArg String.data h
  exact natDigits_inj n m h2

/-! ### The fresh-id search always lands outside the used set -/

theorem findFreeId_not_mem (used : List String) :
    ∀ (fuel n : Nat), (∃ i, i < fuel ∧ natToString (n + i) ∉ used) →
      natToString (findFreeId used fuel n) ∉ used
  | 0, n, h => by
    rcases h with ⟨i, hi, _⟩
    omega
  | fuel + 1, n, h => by
    rw [findFreeId]
    split
    · rename_i hmem
      apply findFreeId_not_mem used fuel (n + 1)
      rcases h with ⟨i, hi, hfree⟩
      cases i with
      | zero => simp at hfree; exact absurd hmem hfree
      | succ j =>
        refine ⟨j, by omega, ?_⟩
        have : n + (j + 1) = n + 1 + j := by omega
        rwa [this] at hfree
    · rename_i hmem
      exact hmem

theorem exists_free_id (used : List String) (n : Nat) :
    ∃ i, i < used.length + 1 ∧ natToString (n + i) ∉ used := by
  by_contra hc
  push_neg at hc
  have hinj : Function.Injective (fun i => natToString (n + i)) := by
    intro a b hab
    have := natToString_inj (n + a) (n + b) hab
    omega
  have hnodup : ((List.range (used.length + 1)).map (fun i => natToString (n + i))).Nodup :=
    (List.nodup_range _).map hinj
  have hsub : ((List.range (used.length + 1)).map (fun i => natToString (n + i))).toFinset ⊆
      used.toFinset := by
    intro x hx
    rw [List.mem_toFinset] at hx
    rcases List.mem_map.mp hx with ⟨i, hi, rfl⟩
    rw [List.mem_toFinset]
    exact hc i (List.mem_range.mp hi)
  have h1 : used.length + 1 ≤ used.toFinset.card := by
    calc used.length + 1
        = ((List.range (used.length + 1)).map (fun i => natToString (n + i))).length := by simp
      _ = ((List.range (used.length + 1)).map
            (fun i => natToString (n + i))).toFinset.card := by
            rw [List.toFinset_card_of_nodup hnodup]
      _ ≤ used.toFinset.card := Finset.card_le_card hsub
  have h2 : used.toFinset.card ≤ used.length := used.toFinset_card_le
  omega

/-! ### Specification of the identifier registry -/

theorem freshId_spec (origKey : Option String) (st : VState) :
    (freshId origKey st).1 ∉ st.usedIds ∧
    ((freshId origKey st).2).usedIds = st.usedIds ++ [(freshId origKey st).1] := by
  have hfree : natToString (findFreeId st.usedIds (st.usedIds.length + 1) st.nextId) ∉
      st.usedIds :=
    findFreeId_not_mem st.usedIds _ _ (exists_free_id st.usedIds st.nextId)
  cases origKey <;> exact ⟨hfree, rfl⟩

theorem getUniqueId_spec (v : JVal) (st : VState) :
    (getUniqueId v st).1 ∉ st.usedIds ∧
    ((getUniqueId v st).2).usedIds = st.usedIds ++ [(getUniqueId v st).1] := by
  have key : ∀ (s : VState), s.usedIds = st.usedIds →
      (freshId none s).1 ∉ st.usedIds ∧
      ((freshId none s).2).usedIds = st.usedIds ++ [(freshId none s).1] := by
    intro s hs
    have h := freshId_spec none s
    rw [hs] at h
    exact h
  cases v with
  | undef => exact key st rfl
  | jnull => exact key st rfl
  | jbool b =>
    by_cases hk : jsToString (JVal.jbool b) ∈ st.usedIds
    · simp only [getUniqueId, if_pos hk]
      have h := freshId_spec (some (jsToString (JVal.jbool b)))
        { st with stats := { st.stats with duplicateIds := st.stats.duplicateIds + 1 } }
      exact ⟨h.1, h.2⟩
    · simp only [getUniqueId, if_neg hk]
      exact ⟨hk, by trivial⟩
  | jnum n =>
    by_cases hk : jsToString (JVal.jnum n) ∈ st.usedIds
    · simp only [getUniqueId, if_pos hk]
      have h := freshId_spec (some (jsToString (JVal.jnum n)))
        { st with stats := { st.stats with duplicateIds := st.stats.duplicateIds + 1 } }
      exact ⟨h.1, h.2⟩
    · simp only [getUniqueId, if_neg hk]
      exact ⟨hk, by trivial⟩
  | jstr s =>
    by_cases hk : jsToString (JVal.jstr s) ∈ st.usedIds
    · simp only [getUniqueId, if_pos hk]
      have h := freshId_spec (some (jsToString (JVal.jstr s)))
        { st with stats := { st.stats with duplicateIds := st.stats.duplicateIds + 1 } }
      exact ⟨h.1, h.2⟩
    · simp only [getUniqueId, if_neg hk]
      exact ⟨hk, by trivial⟩
  | jarr xs =>
    by_cases hk : jsToString (JVal.jarr xs) ∈ st.usedIds
    · simp only [getUniqueId, if_pos hk]
      have h := freshId_spec (some (jsToString (JVal.jarr xs)))
        { st with stats := { st.stats with duplicateIds := st.stats.duplicateIds + 1 } }
      exact ⟨h.1, h.2⟩
    · simp only [getUniqueId, if_neg hk]
      exact ⟨hk, by trivial⟩
  | jobj kvs =>
    by_cases hk : jsToString (JVal.jobj kvs) ∈ st.usedIds
    · simp only [getUniqueId, if_pos hk]
      have h := freshId_spec (some (jsToString (JVal.jobj kvs)))
        { st with stats := { st.stats with duplicateIds := st.stats.duplicateIds + 1 } }
      exact ⟨h.1, h.2⟩
    · simp only [getUniqueId, if_neg hk]
      exact ⟨hk, by trivial⟩

theorem getUniqueId_usedIds (v : JVal) (st : VState) :
    ((getUniqueId v st).2).usedIds = st.usedIds ++ [(getUniqueId v st).1] :=
  (getUniqueId_spec v st).2

theorem getUniqueId_fresh (v : JVal) (st : VState) : (getUniqueId v st).1 ∉ st.usedIds :=
  (getUniqueId_spec v st).1

/-! ### The stats-only steps leave the id registry untouched -/

theorem parseNumeric_usedIds (v : JVal) (f i : String) (st : VState) :
    ((parseNumeric v f i st).2).usedIds = st.usedIds := by
  cases v with
  | jstr s =>
    by_cases hs : s = ""
    · subst hs; rfl
    · simp only [parseNumeric, if_neg hs]
      cases parseFloatJs (cleanNumeric s) <;> rfl
  | jnum n => cases n <;> rfl
  | _ => rfl

theorem generateTitle_usedIds (meal : JVal) (region diet : String) (index : Nat) (st : VState) :
    ((generateTitle meal region diet index st).2).usedIds = st.usedIds := by
  unfold generateTitle
  split
  · rfl
  · cases foodsTitle meal
    · cases ingredientsTitle meal <;> rfl
    · rfl

/-! ### Every emitted record has a canonical meal type -/

theorem normalizeMealType_mem (mealType title tags : JVal) :
    normalizeMealType mealType title tags ∈ CANONICAL_MEAL_TYPES := by
  unfold normalizeMealType
  split
  · dsimp only
    split_ifs <;> decide
  · dsimp only
    split
    · assumption
    · split
      · decide
      · split
        · decide
        · split
          · rename_i t hfind
            exact List.mem_of_find?_eq_some hfind
          · decide

/-! ### Specification of normalizeMeal: fresh id, diet inclusion, no NaN -/

theorem normalizeMeal_spec (meal : JVal) (r d : String) (hint : JVal) (idx : Nat)
    (st : VState) :
    (((normalizeMeal meal r d hint idx st).2).usedIds =
      st.usedIds ++ (match (normalizeMeal meal r d hint idx st).1 with
        | some rec => [rec.id]
        | none => [])) ∧
    (∀ rec, (normalizeMeal meal r d hint idx st).1 = some rec →
      rec.id ∉ st.usedIds ∧ JVal.jstr d ∈ rec.diets ∧ recNonNan rec ∧
        rec.mealType ∈ CANONICAL_MEAL_TYPES) := by
  by_cases hg : truthy meal = true ∧ isObjLike meal = true
  · by_cases hp : ((jsKeys meal).any fun k => strIncludes (toLowerJs k) "preparation") = true <;>
    · simp only [normalizeMeal, if_neg (not_not_intro hg), hp, if_true, if_false,
        parseNumeric_usedIds, generateTitle_usedIds, getUniqueId_usedIds]
      constructor
      · trivial
      · intro rec hrec
        have her := Option.some.inj hrec
        subst her
        refine ⟨getUniqueId_fresh _ _, ?_, ?_, normalizeMealType_mem _ _ _⟩
        · dsimp only
          cases hdi : jsGet meal "diets" with
          | jarr l =>
            simp only [hdi]
            by_cases hany : (l.any fun dv => jeqStr dv d) = true
            · rw [if_pos hany]
              rcases List.any_eq_true.mp hany with ⟨x, hx, hj⟩
              rw [← jeqStr_eq_true.mp hj]
              exact hx
            · rw [if_neg hany]
              exact List.mem_cons_self _ _
          | undef => exact List.mem_singleton.mpr rfl
          | jnull => exact List.mem_singleton.mpr rfl
          | jbool b => exact List.mem_singleton.mpr rfl
          | jnum n => exact List.mem_singleton.mpr rfl
          | jstr s => exact List.mem_singleton.mpr rfl
          | jobj kvs => exact List.mem_singleton.mpr rfl
        · exact ⟨parseNumeric_fst_ne_nan _ _ _ _, parseNumeric_fst_ne_nan _ _ _ _,
            parseNumeric_fst_ne_nan _ _ _ _, parseNumeric_fst_ne_nan _ _ _ _,
            parseNumeric_fst_ne_nan _ _ _ _⟩
  · simp only [normalizeMeal, if_pos hg]
    exact ⟨by simp, fun rec hrec => by simp at hrec⟩

theorem normalizeMeal_nodup (meal : JVal) (r d : String) (hint : JVal) (idx : Nat)
    (st : VState) (h : st.usedIds.Nodup) :
    ((normalizeMeal meal r d hint idx st).2).usedIds.Nodup := by
  have hs := normalizeMeal_spec meal r d hint idx st
  rw [hs.1]
  cases hres : (normalizeMeal meal r d hint idx st).1 with
  | none => simpa using h
  | some rec =>
    have hfresh := (hs.2 rec hres).1
    simp [List.nodup_append, h, hfresh]

/-! ### Specification of flattenOptions -/

theorem flattenOptionsLoop_spec (base : JVal) (r d : String) (hint : JVal) :
    ∀ (opts : List JVal) (i : Nat) (st : VState),
      (((flattenOptionsLoop base r d hint opts i st).2).usedIds =
        st.usedIds ++ ((flattenOptionsLoop base r d hint opts i st).1).map (fun rec => rec.id)) ∧
      (st.usedIds.Nodup → (((flattenOptionsLoop base r d hint opts i st).2).usedIds).Nodup) ∧
      (∀ rec ∈ (flattenOptionsLoop base r d hint opts i st).1,
        JVal.jstr d ∈ rec.diets ∧ recNonNan rec ∧ rec.mealType ∈ CANONICAL_MEAL_TYPES)
  | [], i, st => ⟨by simp [flattenOptionsLoop], fun h => by simpa [flattenOptionsLoop] using h,
      by simp [flattenOptionsLoop]⟩
  | opt :: rest, i, st => by
    rw [flattenOptionsLoop]
    dsimp only
    set om := optionMealOf base opt i with hom
    have hnm := normalizeMeal_spec om r d hint i st
    have hnmd := normalizeMeal_nodup om r d hint i st
    have ih := flattenOptionsLoop_spec base r d hint rest (i + 1)
      (normalizeMeal om r d hint i st).2
    cases hres : (normalizeMeal om r d hint i st).1 with
    | none =>
      have hused := hnm.1
      rw [hres] at hused
      refine ⟨?_, ?_, ?_⟩
      · rw [ih.1, hused]
        simp
      · intro hnd
        exact ih.2.1 (by rw [hused]; simpa using hnd)
      · intro rec hrec
        exact ih.2.2 rec hrec
    | some n =>
      have hgood := hnm.2
      have hused := hnm.1
      rw [hres] at hused
      refine ⟨?_, ?_, ?_⟩
      · rw [ih.1, hused]
        simp
      · intro hnd
        exact ih.2.1 (hnmd hnd)
      · intro rec hrec
        rcases List.mem_cons.mp hrec with rfl | hrec
        · exact (hgood rec hres).2
        · exact ih.2.2 rec hrec

theorem flattenOptions_spec (meal : JVal) (r d : String) (hint : JVal) (st : VState) :
    (((flattenOptions meal r d hint st).2).usedIds =
      st.usedIds ++ ((flattenOptions meal r d hint st).1).map (fun rec => rec.id)) ∧
    (st.usedIds.Nodup → (((flattenOptions meal r d hint st).2).usedIds).Nodup) ∧
    (∀ rec ∈ (flattenOptions meal r d hint st).1,
      JVal.jstr d ∈ rec.diets ∧ recNonNan rec ∧ rec.mealType ∈ CANONICAL_MEAL_TYPES) := by
  rw [flattenOptions]
  cases hopt : jsGet meal "options" with
  | jarr xs =>
    dsimp only
    exact flattenOptionsLoop_spec _ r d hint xs 0 _
  | undef =>
    dsimp only
    have hnm := normalizeMeal_spec meal r d hint 0 st
    have hnmd := normalizeMeal_nodup meal r d hint 0 st
    cases hres : (normalizeMeal meal r d hint 0 st).1 with
    | none =>
      have hused := hnm.1
      rw [hres] at hused
      exact ⟨by rw [hused]; simp, fun h => hnmd h, by simp⟩
    | some n =>
      have hgood := hnm.2
      have hused := hnm.1
      rw [hres] at hused
      refine ⟨by rw [hused]; simp, fun h => hnmd h, ?_⟩
      intro rec hrec
      rcases List.mem_singleton.mp hrec with rfl
      exact (hgood rec hres).2
  | jnull =>
    dsimp only
    have hnm := normalizeMeal_spec meal r d hint 0 st
    have hnmd := normalizeMeal_nodup meal r d hint 0 st
    cases hres : (normalizeMeal meal r d hint 0 st).1 with
    | none =>
      have hused := hnm.1
      rw [hres] at hused
      exact ⟨by rw [hused]; simp, fun h => hnmd h, by simp⟩
    | some n =>
      have hgood := hnm.2
      have hused := hnm.1
      rw [hres] at hused
      refine ⟨by rw [hused]; simp, fun h => hnmd h, ?_⟩
      intro rec hrec
      rcases List.mem_singleton.mp hrec with rfl
      exact (hgood rec hres).2
  | jbool b =>
    dsimp only
    have hnm := normalizeMeal_spec meal r d hint 0 st
    have hnmd := normalizeMeal_nodup meal r d hint 0 st
    cases hres : (normalizeMeal meal r d hint 0 st).1 with
    | none =>
      have hused := hnm.1
      rw [hres] at hused
      exact ⟨by rw [hused]; simp, fun h => hnmd h, by simp⟩
    | some n =>
      have hgood := hnm.2
      have hused := hnm.1
      rw [hres] at hused
      refine ⟨by rw [hused]; simp, fun h => hnmd h, ?_⟩
      intro rec hrec
      rcases List.mem_singleton.mp hrec with rfl
      exact (hgood rec hres).2
  | jnum nv =>
    dsimp only
    have hnm := normalizeMeal_spec meal r d hint 0 st
    have hnmd := normalizeMeal_nodup meal r d hint 0 st
    cases hres : (normalizeMeal meal r d hint 0 st).1 with
    | none =>
      have hused := hnm.1
      rw [hres] at hused
      exact ⟨by rw [hused]; simp, fun h => hnmd h, by simp⟩
    | some n =>
      have hgood := hnm.2
      have hused := hnm.1
      rw [hres] at hused
      refine ⟨by rw [hused]; simp, fun h => hnmd h, ?_⟩
      intro rec hrec
      rcases List.mem_singleton.mp hrec with rfl
      exact (hgood rec hres).2
  | jstr s =>
    dsimp only
    have hnm := normalizeMeal_spec meal r d hint 0 st
    have hnmd := normalizeMeal_nodup meal r d hint 0 st
    cases hres : (normalizeMeal meal r d hint 0 st).1 with
    | none =>
      have hused := hnm.1
      rw [hres] at hused
      exact ⟨by rw [hused]; simp, fun h => hnmd h, by simp⟩
    | some n =>
      have hgood := hnm.2
      have hused := hnm.1
      rw [hres] at hused
      refine ⟨by rw [hused]; simp, fun h => hnmd h, ?_⟩
      intro rec hrec
      rcases List.mem_singleton.mp hrec with rfl
      exact (hgood rec hres).2
  | jobj kvs =>
    dsimp only
    have hnm := normalizeMeal_spec meal r d hint 0 st
    have hnmd := normalizeMeal_nodup meal r d hint 0 st
    cases hres : (normalizeMeal meal r d hint 0 st).1 with
    | none =>
      have hused := hnm.1
      rw [hres] at hused
      exact ⟨by rw [hused]; simp, fun h => hnmd h, by simp⟩
    | some n =>
      have hgood := hnm.2
      have hused := hnm.1
      rw [hres] at hused
      refine ⟨by rw [hused]; simp, fun h => hnmd h, ?_⟩
      intro rec hrec
      rcases List.mem_singleton.mp hrec with rfl
      exact (hgood rec hres).2

/-! ### Pushing one record permutes the tagged-record multiset by one -/

theorem recsOfMts_updA (rec : CanonRecord) :
    ∀ (md : List (String × List CanonRecord)) (mt : String), mt ∈ md.map Prod.fst →
      List.Perm (recsOfMts (updA mt (fun l => l ++ [rec]) md)) (rec :: recsOfMts md)
  | [], mt, h => by simp at h
  | (k, v) :: t, mt, h => by
    by_cases hk : k = mt
    · simp only [updA, if_pos hk, recsOfMts, List.flatMap_cons]
      exact (List.perm_append_singleton rec v).append_right _
    · have hmem : mt ∈ t.map Prod.fst := by
        simp only [List.map_cons, List.mem_cons] at h
        rcases h with h1 | h1
        · exact absurd h1.symm hk
        · exact h1
      have ih := recsOfMts_updA rec t mt hmem
      simp only [updA, if_neg hk, recsOfMts, List.flatMap_cons]
      exact (ih.append_left v).trans List.perm_middle

theorem taggedOfDiets_updA (rec : CanonRecord) :
    ∀ (rd : List (String × List (String × List CanonRecord)))
      (ds : List String) (d mt : String),
      rd.map (fun de => (de.1, de.2.map Prod.fst)) =
        ds.map (fun x => (x, CANONICAL_MEAL_TYPES)) →
      d ∈ ds → mt ∈ CANONICAL_MEAL_TYPES →
      List.Perm (taggedOfDiets (updA d (updA mt (fun l => l ++ [rec])) rd))
        ((d, rec) :: taggedOfDiets rd)
  | [], ds, d, mt, hshape, hd, hmt => by
    cases ds with
    | nil => simp at hd
    | cons a t => simp at hshape
  | (k, v) :: t, ds, d, mt, hshape, hd, hmt => by
    cases ds with
    | nil => simp at hshape
    | cons d0 ds' =>
      simp only [List.map_cons, List.cons.injEq, Prod.mk.injEq] at hshape
      obtain ⟨⟨hk0, hv0⟩, hrest⟩ := hshape
      by_cases hk : k = d
      · subst hk
        simp only [updA, if_pos rfl, taggedOfDiets, List.flatMap_cons]
        have hperm := recsOfMts_updA rec v mt (by rw [hv0]; exact hmt)
        exact (hperm.map (fun x => (k, x))).append_right _
      · have hd2 : d ∈ ds' := by
          rcases List.mem_cons.mp hd with h1 | h1
          · exact absurd (hk0.trans h1.symm) hk
          · exact h1
        have ih := taggedOfDiets_updA rec t ds' d mt hrest hd2 hmt
        simp only [updA, if_neg hk, taggedOfDiets, List.flatMap_cons]
        exact (ih.append_left _).trans List.perm_middle

theorem taggedRecords_pushCat_aux (rec : CanonRecord) (d mt : String) :
    ∀ (cat : Catalog) (rs : List String) (r : String),
      cat.map (fun re => (re.1, re.2.map (fun de => (de.1, de.2.map Prod.fst)))) =
        rs.map (fun x => (x, CANONICAL_DIETS.map (fun y => (y, CANONICAL_MEAL_TYPES)))) →
      r ∈ rs → d ∈ CANONICAL_DIETS → mt ∈ CANONICAL_MEAL_TYPES →
      List.Perm (taggedRecords (updA r (updA d (updA mt (fun l => l ++ [rec]))) cat))
        ((d, rec) :: taggedRecords cat)
  | [], rs, r, hshape, hr, _, _ => by
    cases rs with
    | nil => simp at hr
    | cons a t => simp at hshape
  | (k, v) :: t, rs, r, hshape, hr, hd, hmt => by
    cases rs with
    | nil => simp at hshape
    | cons r0 rs2 =>
      simp only [List.map_cons, List.cons.injEq, Prod.mk.injEq] at hshape
      obtain ⟨⟨hk0, hv0⟩, hrest⟩ := hshape
      by_cases hk : k = r
      · subst hk
        simp only [updA, if_pos rfl, taggedRecords, List.flatMap_cons]
        have hperm := taggedOfDiets_updA rec v CANONICAL_DIETS d mt hv0 hd hmt
        exact hperm.append_right _
      · have hr2 : r ∈ rs2 := by
          rcases List.mem_cons.mp hr with h1 | h1
          · exact absurd (hk0.trans h1.symm) hk
          · exact h1
        have ih := taggedRecords_pushCat_aux rec d mt t rs2 r hrest hr2 hd hmt
        simp only [updA, if_neg hk, taggedRecords, List.flatMap_cons]
        exact (ih.append_left _).trans List.perm_middle

theorem taggedRecords_pushCat (cat : Catalog) (r d mt : String) (rec : CanonRecord)
    (hshape : catShape cat = gridShape) (hr : r ∈ CANONICAL_REGIONS)
    (hd : d ∈ CANONICAL_DIETS) (hmt : mt ∈ CANONICAL_MEAL_TYPES) :
    List.Perm (taggedRecords (pushCat cat r d mt rec)) ((d, rec) :: taggedRecords cat) :=
  taggedRecords_pushCat_aux rec d mt cat CANONICAL_REGIONS r
    (by simpa [catShape, gridShape] using hshape) hr hd hmt

/-! ### Specification of the placement step -/

theorem mtBucketKey_mem (m : CanonRecord) (h : m.mealType ∈ CANONICAL_MEAL_TYPES) :
    mtBucketKey m ∈ CANONICAL_MEAL_TYPES := by
  unfold mtBucketKey
  split
  · decide
  · exact h

theorem rewriteDiets_facts (m : CanonRecord) (t : String) :
    (rewriteDiets m t).id = m.id ∧ JVal.jstr t ∈ (rewriteDiets m t).diets ∧
    (recNonNan m → recNonNan (rewriteDiets m t)) ∧
    (rewriteDiets m t).mealType = m.mealType :=
  ⟨rfl, List.mem_cons_self _ _, fun h => h, rfl⟩

theorem placeNormalized_spec (cat : Catalog) (regionKey dietKey : String) (m : CanonRecord)
    (st : VState) (hshape : catShape cat = gridShape)
    (hr : regionKey ∈ CANONICAL_REGIONS) (hd : dietKey ∈ CANONICAL_DIETS)
    (hgood : JVal.jstr dietKey ∈ m.diets ∧ recNonNan m ∧ m.mealType ∈ CANONICAL_MEAL_TYPES) :
    ((placeNormalized cat regionKey dietKey m st).2).usedIds = st.usedIds ∧
    ∃ d2 m2, d2 ∈ CANONICAL_DIETS ∧ m2.id = m.id ∧ JVal.jstr d2 ∈ m2.diets ∧ recNonNan m2 ∧
      List.Perm (taggedRecords (placeNormalized cat regionKey dietKey m st).1)
        ((d2, m2) :: taggedRecords cat) := by
  obtain ⟨hdm, hnn, hmtm⟩ := hgood
  by_cases hv : checkDietViolations m dietKey ≠ []
  · by_cases h1 : dietKey = "Vegan"
    · subst h1
      by_cases hde : ((checkDietViolations m "Vegan").all fun v => decide (v ∈ DAIRY_EGG_TERMS))
          = true
      · refine ⟨by simp [placeNormalized, hv, hde], "Vegetarian", rewriteDiets m "Vegetarian",
          by decide, rfl, List.mem_cons_self _ _, hnn, ?_⟩
        have hperm := taggedRecords_pushCat cat regionKey "Vegetarian"
          (mtBucketKey (rewriteDiets m "Vegetarian")) (rewriteDiets m "Vegetarian")
          hshape hr (by decide) (mtBucketKey_mem _ hmtm)
        simpa [placeNormalized, hv, hde] using hperm
      · refine ⟨by simp [placeNormalized, hv, hde], "Regular", rewriteDiets m "Regular",
          by decide, rfl, List.mem_cons_self _ _, hnn, ?_⟩
        have hperm := taggedRecords_pushCat cat regionKey "Regular"
          (mtBucketKey (rewriteDiets m "Regular")) (rewriteDiets m "Regular")
          hshape hr (by decide) (mtBucketKey_mem _ hmtm)
        simpa [placeNormalized, hv, hde] using hperm
    · by_cases h2 : dietKey = "Vegetarian"
      · subst h2
        refine ⟨by simp [placeNormalized, hv, h1], "Regular", rewriteDiets m "Regular",
          by decide, rfl, List.mem_cons_self _ _, hnn, ?_⟩
        have hperm := taggedRecords_pushCat cat regionKey "Regular"
          (mtBucketKey (rewriteDiets m "Regular")) (rewriteDiets m "Regular")
          hshape hr (by decide) (mtBucketKey_mem _ hmtm)
        simpa [placeNormalized, hv, h1] using hperm
      · refine ⟨by simp [placeNormalized, hv, h1, h2], dietKey, rewriteDiets m dietKey,
          hd, rfl, List.mem_cons_self _ _, hnn, ?_⟩
        have hperm := taggedRecords_pushCat cat regionKey dietKey
          (mtBucketKey (rewriteDiets m dietKey)) (rewriteDiets m dietKey)
          hshape hr hd (mtBucketKey_mem _ hmtm)
        simpa [placeNormalized, hv, h1, h2] using hperm
  · refine ⟨by simp [placeNormalized, hv], dietKey, m, hd, rfl, hdm, hnn, ?_⟩
    have hperm := taggedRecords_pushCat cat regionKey dietKey (mtBucketKey m) m
      hshape hr hd (mtBucketKey_mem _ hmtm)
    simpa [placeNormalized, hv] using hperm

/-! ### The run invariant is preserved by every loop of the reconciler -/

theorem placeLoop_inv :
    ∀ (recs : List CanonRecord) (cat : Catalog) (regionKey dietKey : String) (st : VState),
      INV cat st → regionKey ∈ CANONICAL_REGIONS → dietKey ∈ CANONICAL_DIETS →
      (∀ rec ∈ recs, JVal.jstr dietKey ∈ rec.diets ∧ recNonNan rec ∧
        rec.mealType ∈ CANONICAL_MEAL_TYPES) →
      (recs.map (fun rec => rec.id)).Nodup →
      (∀ rec ∈ recs, rec.id ∈ st.usedIds) →
      (∀ rec ∈ recs, rec.id ∉ allIds cat) →
      INV (placeLoop recs cat regionKey dietKey st).1
        (placeLoop recs cat regionKey dietKey st).2 ∧
      ((placeLoop recs cat regionKey dietKey st).2).usedIds = st.usedIds
  | [], _, _, _, _, hinv, _, _, _, _, _, _ => ⟨hinv, rfl⟩
  | rec :: rest, cat, rk, dk, st, hinv, hr, hd, hgood, hnd, hin, hnotin => by
    rw [placeLoop]
    obtain ⟨hsh, hudup, hsub, hids, hprop⟩ := hinv
    obtain ⟨husd, d2, m2, hd2, hid2, hdm2, hnn2, hperm⟩ :=
      placeNormalized_spec cat rk dk rec st hsh hr hd (hgood rec (List.mem_cons_self _ _))
    have hmap := hperm.map (fun p => p.2.id)
    have hshape2 : catShape (placeNormalized cat rk dk rec st).1 = gridShape := by
      rw [catShape_placeNormalized]
      exact hsh
    have hsub2 : ∀ i ∈ allIds (placeNormalized cat rk dk rec st).1,
        i ∈ ((placeNormalized cat rk dk rec st).2).usedIds := by
      intro i hi
      rw [husd]
      rcases List.mem_cons.mp (hmap.mem_iff.mp hi) with h1 | h1
      · have h1b : i = m2.id := h1
        rw [h1b, hid2]
        exact hin rec (List.mem_cons_self _ _)
      · exact hsub i h1
    have hids2 : (allIds (placeNormalized cat rk dk rec st).1).Nodup := by
      refine (hmap.nodup_iff).mpr ?_
      simp only [List.map_cons]
      refine List.nodup_cons.mpr ⟨?_, hids⟩
      show m2.id ∉ (taggedRecords cat).map (fun p => p.2.id)
      rw [hid2]
      exact hnotin rec (List.mem_cons_self _ _)
    have hprop2 : ∀ p ∈ taggedRecords (placeNormalized cat rk dk rec st).1,
        JVal.jstr p.1 ∈ p.2.diets ∧ recNonNan p.2 := by
      intro p hp
      rcases List.mem_cons.mp (hperm.mem_iff.mp hp) with h1 | h1
      · rw [h1]
        exact ⟨hdm2, hnn2⟩
      · exact hprop p h1
    have hudup2 : ((placeNormalized cat rk dk rec st).2).usedIds.Nodup := by
      rw [husd]
      exact hudup
    have hrec := placeLoop_inv rest (placeNormalized cat rk dk rec st).1 rk dk
      (placeNormalized cat rk dk rec st).2
      ⟨hshape2, hudup2, hsub2, hids2, hprop2⟩ hr hd
      (fun x hx => hgood x (List.mem_cons_of_mem _ hx))
      ((List.nodup_cons.mp hnd).2)
      (fun x hx => by
        rw [husd]
        exact hin x (List.mem_cons_of_mem _ hx))
      (fun x hx hxmem => by
        rcases List.mem_cons.mp (hmap.mem_iff.mp hxmem) with h1 | h1
        · have h1b : x.id = m2.id := h1
          rw [hid2] at h1b
          have hx2 : x.id ∈ rest.map (fun r => r.id) := List.mem_map_of_mem _ hx
          rw [h1b] at hx2
          exact (List.nodup_cons.mp hnd).1 hx2
        · exact hnotin x (List.mem_cons_of_mem _ hx) h1)
    exact ⟨hrec.1, by rw [hrec.2, husd]⟩

theorem dietKeyOf_mem (origDiet : String) : dietKeyOf origDiet ∈ CANONICAL_DIETS := by
  unfold dietKeyOf
  split
  · decide
  · rename_i h
    exact not_not.mp h

theorem dietStateUpd_usedIds (origDiet : String) (st : VState) :
    (dietStateUpd origDiet st).usedIds = st.usedIds := by
  unfold dietStateUpd
  split <;> split <;> rfl

theorem regionStateUpd_usedIds (origRegion : String) (st : VState) :
    (regionStateUpd origRegion st).usedIds = st.usedIds := by
  unfold regionStateUpd
  split <;> rfl

theorem mealsLoop_inv :
    ∀ (meals : List JVal) (cat : Catalog) (rk dk : String) (st : VState),
      INV cat st → rk ∈ CANONICAL_REGIONS → dk ∈ CANONICAL_DIETS →
      INV (mealsLoop meals cat rk dk st).1 (mealsLoop meals cat rk dk st).2
  | [], _, _, _, _, hinv, _, _ => hinv
  | meal :: rest, cat, rk, dk, st, hinv, hr, hd => by
    rw [mealsLoop]
    split
    · dsimp only
      obtain ⟨hsh, hudup, hsub, hids, hprop⟩ := hinv
      have hfs := flattenOptions_spec (jsDelete meal "_mealTypeHint") rk dk
        (jsGet meal "_mealTypeHint") st
      set fres := flattenOptions (jsDelete meal "_mealTypeHint") rk dk
        (jsGet meal "_mealTypeHint") st with hfres
      have hnd1 : (fres.2).usedIds.Nodup := hfs.2.1 hudup
      have hsplit : (st.usedIds ++ fres.1.map (fun rec => rec.id)).Nodup := by
        rw [← hfs.1]
        exact hnd1
      have hdisj := (List.nodup_append.mp hsplit).2.2
      have houtnd : (fres.1.map (fun rec => rec.id)).Nodup :=
        (List.nodup_append.mp hsplit).2.1
      have hinv1 : INV cat fres.2 := by
        refine ⟨hsh, hnd1, ?_, hids, hprop⟩
        intro i hi
        rw [hfs.1]
        exact List.mem_append_left _ (hsub i hi)
      have hpl := placeLoop_inv fres.1 cat rk dk fres.2 hinv1 hr hd hfs.2.2 houtnd
        (fun rec hrec => by
          rw [hfs.1]
          exact List.mem_append_right _ (List.mem_map_of_mem _ hrec))
        (fun rec hrec hmem =>
          hdisj (hsub _ hmem) (List.mem_map_of_mem (fun r => r.id) hrec))
      exact mealsLoop_inv rest _ rk dk _ hpl.1 hr hd
    · exact mealsLoop_inv rest cat rk dk st hinv hr hd

theorem dietsLoop_inv :
    ∀ (entries : List (String × JVal)) (cat : Catalog) (rk : String) (st : VState),
      INV cat st → rk ∈ CANONICAL_REGIONS →
      INV (dietsLoop entries cat rk st).1 (dietsLoop entries cat rk st).2
  | [], _, _, _, hinv, _ => hinv
  | (origDiet, dietData) :: rest, cat, rk, st, hinv, hr => by
    rw [dietsLoop]
    have hinv1 : INV cat (dietStateUpd origDiet st) := by
      obtain ⟨hsh, hudup, hsub, hids, hprop⟩ := hinv
      refine ⟨hsh, ?_, ?_, hids, hprop⟩
      · rw [dietStateUpd_usedIds]
        exact hudup
      · intro i hi
        rw [dietStateUpd_usedIds]
        exact hsub i hi
    have hml := mealsLoop_inv (collectMeals dietData) cat rk (dietKeyOf origDiet)
      (dietStateUpd origDiet st) hinv1 hr (dietKeyOf_mem origDiet)
    exact dietsLoop_inv rest _ rk _ hml hr

theorem regionsLoop_inv :
    ∀ (entries : List (String × JVal)) (cat : Catalog) (st : VState),
      INV cat st → INV (regionsLoop entries cat st).1 (regionsLoop entries cat st).2
  | [], _, _, hinv => hinv
  | (origRegion, regionData) :: rest, cat, st, hinv => by
    rw [regionsLoop]
    by_cases hm : origRegion = "__meta__"
    · rw [if_pos hm]
      exact regionsLoop_inv rest cat st hinv
    · rw [if_neg hm]
      by_cases hrk : regionKeyOf origRegion ∉ CANONICAL_REGIONS
      · rw [if_pos hrk]
        exact regionsLoop_inv rest cat st hinv
      · rw [if_neg hrk]
        dsimp only
        have hinv1 : INV cat (regionStateUpd origRegion st) := by
          obtain ⟨hsh, hudup, hsub, hids, hprop⟩ := hinv
          refine ⟨hsh, ?_, ?_, hids, hprop⟩
          · rw [regionStateUpd_usedIds]
            exact hudup
          · intro i hi
            rw [regionStateUpd_usedIds]
            exact hsub i hi
        have hdl := dietsLoop_inv (jsOwnEntries (jsOr regionData (.jobj []))) cat
          (regionKeyOf origRegion) (regionStateUpd origRegion st) hinv1 (not_not.mp hrk)
        exact regionsLoop_inv rest _ _ hdl

theorem runCatalog_inv (input : JVal) :
    INV (runCatalog input).1 (runCatalog input).2 := by
  rw [runCatalog]
  apply regionsLoop_inv
  refine ⟨catShape_initCatalog, List.nodup_nil, ?_, ?_, ?_⟩
  · intro i hi
    have h : allIds initCatalog = [] := rfl
    rw [h] at hi
    simp at hi
  · have h : allIds initCatalog = [] := rfl
    rw [h]
    exact List.nodup_nil
  · intro p hp
    have h : taggedRecords initCatalog = [] := rfl
    rw [h] at hp
    simp at hp

/-! ### Membership in a pushed catalog -/

theorem recsOfMts_cons (e : String × List CanonRecord) (t : List (String × List CanonRecord)) :
    recsOfMts (e :: t) = e.2 ++ recsOfMts t := by
  simp [recsOfMts]

theorem taggedOfDiets_cons (e : String × List (String × List CanonRecord))
    (t : List (String × List (String × List CanonRecord))) :
    taggedOfDiets (e :: t) = (recsOfMts e.2).map (fun rec => (e.1, rec)) ++ taggedOfDiets t := by
  simp [taggedOfDiets]

theorem taggedRecords_cons (e : String × List (String × List (String × List CanonRecord)))
    (t : Catalog) :
    taggedRecords (e :: t) = taggedOfDiets e.2 ++ taggedRecords t := by
  simp [taggedRecords]

theorem updA_cons_pos {α : Type} (k k2 : String) (f : α → α) (v : α)
    (t : List (String × α)) (hk : k2 = k) :
    updA k f ((k2, v) :: t) = (k2, f v) :: t := by
  simp [updA, hk]

theorem updA_cons_neg {α : Type} (k k2 : String) (f : α → α) (v : α)
    (t : List (String × α)) (hk : ¬ k2 = k) :
    updA k f ((k2, v) :: t) = (k2, v) :: updA k f t := by
  simp [updA, hk]

theorem recsOfMts_updA_mem (rec : CanonRecord) :
    ∀ (md : List (String × List CanonRecord)) (mt : String) (x : CanonRecord),
      x ∈ recsOfMts (updA mt (fun l => l ++ [rec]) md) → x ∈ recsOfMts md ∨ x = rec
  | [], mt, x, h => by simp [recsOfMts, updA] at h
  | (k, v) :: t, mt, x, h => by
    by_cases hk : k = mt
    · rw [updA_cons_pos mt k _ v t hk, recsOfMts_cons] at h
      rw [recsOfMts_cons]
      rcases List.mem_append.mp h with h | h
      · rcases List.mem_append.mp h with h | h
        · exact Or.inl (List.mem_append.mpr (Or.inl h))
        · exact Or.inr (List.mem_singleton.mp h)
      · exact Or.inl (List.mem_append.mpr (Or.inr h))
    · rw [updA_cons_neg mt k _ v t hk, recsOfMts_cons] at h
      rw [recsOfMts_cons]
      rcases List.mem_append.mp h with h | h
      · exact Or.inl (List.mem_append.mpr (Or.inl h))
      · rcases recsOfMts_updA_mem rec t mt x h with h2 | h2
        · exact Or.inl (List.mem_append.mpr (Or.inr h2))
        · exact Or.inr h2

theorem taggedOfDiets_updA_mem (rec : CanonRecord) :
    ∀ (rd : List (String × List (String × List CanonRecord))) (d mt : String)
      (p : String × CanonRecord),
      p ∈ taggedOfDiets (updA d (updA mt (fun l => l ++ [rec])) rd) →
      p ∈ taggedOfDiets rd ∨ p = (d, rec)
  | [], d, mt, p, h => by simp [taggedOfDiets, updA] at h
  | (k, v) :: t, d, mt, p, h => by
    by_cases hk : k = d
    · rw [updA_cons_pos d k _ v t hk, taggedOfDiets_cons] at h
      rw [taggedOfDiets_cons]
      rcases List.mem_append.mp h with h | h
      · rcases List.mem_map.mp h with ⟨x, hx, hpx⟩
        rcases recsOfMts_updA_mem rec v mt x hx with h2 | h2
        · exact Or.inl (List.mem_append.mpr (Or.inl
            (List.mem_map.mpr ⟨x, h2, hpx⟩)))
        · right
          rw [← hpx, h2, hk]
      · exact Or.inl (List.mem_append.mpr (Or.inr h))
    · rw [updA_cons_neg d k _ v t hk, taggedOfDiets_cons] at h
      rw [taggedOfDiets_cons]
      rcases List.mem_append.mp h with h | h
      · exact Or.inl (List.mem_append.mpr (Or.inl h))
      · rcases taggedOfDiets_updA_mem rec t d mt p h with h2 | h2
        · exact Or.inl (List.mem_append.mpr (Or.inr h2))
        · exact Or.inr h2

theorem taggedRecords_pushCat_mem (rec : CanonRecord) :
    ∀ (cat : Catalog) (r d mt : String) (p : String × CanonRecord),
      p ∈ taggedRecords (pushCat cat r d mt rec) → p ∈ taggedRecords cat ∨ p = (d, rec)
  | [], r, d, mt, p, h => by simp [taggedRecords, pushCat, updA] at h
  | (k, v) :: t, r, d, mt, p, h => by
    by_cases hk : k = r
    · rw [pushCat, updA_cons_pos r k _ v t hk, taggedRecords_cons] at h
      rw [taggedRecords_cons]
      rcases List.mem_append.mp h with h | h
      · rcases taggedOfDiets_updA_mem rec v d mt p h with h2 | h2
        · exact Or.inl (List.mem_append.mpr (Or.inl h2))
        · exact Or.inr h2
      · exact Or.inl (List.mem_append.mpr (Or.inr h))
    · rw [pushCat, updA_cons_neg r k _ v t hk, taggedRecords_cons] at h
      rw [taggedRecords_cons]
      rcases List.mem_append.mp h with h | h
      · exact Or.inl (List.mem_append.mpr (Or.inl h))
      · rcases taggedRecords_pushCat_mem rec t r d mt p h with h2 | h2
        · exact Or.inl (List.mem_append.mpr (Or.inr h2))
        · exact Or.inr h2

/-! ### C1: global id uniqueness -/

/-- C1.  For every run on any input catalog and run instant, the ids of
all records placed into the output catalog are pairwise distinct, even
when input records share an original id or option flattening multiplies
one. -/
theorem validateAndFix_ids_unique (now : String) (input : JVal) :
    (allIds (validateAndFix now input).data).Nodup :=
  (runCatalog_inv input).2.2.2.1

/-! ### C3: the bucket diet key is always carried in the record -/

/-- C3.  Every record stored in the output catalog carries the diet key
of the bucket it is stored under inside its diets array; moreover any
record that the violation check reclassifies is stored as a pair whose
record has its bucket's diet key placed first in the diets array. -/
theorem validateAndFix_diet_invariant :
    (∀ now input, ∀ p ∈ taggedRecords (validateAndFix now input).data,
      JVal.jstr p.1 ∈ p.2.diets) ∧
    (∀ cat st regionKey dietKey m, checkDietViolations m dietKey ≠ [] →
      ∀ p ∈ taggedRecords (placeNormalized cat regionKey dietKey m st).1,
        p ∈ taggedRecords cat ∨ p.2.diets.head? = some (JVal.jstr p.1)) := by
  constructor
  · intro now input p hp
    exact ((runCatalog_inv input).2.2.2.2 p hp).1
  · intro cat st regionKey dietKey m hv p hp
    by_cases h1 : dietKey = "Vegan"
    · subst h1
      by_cases hde : ((checkDietViolations m "Vegan").all fun v =>
          decide (v ∈ DAIRY_EGG_TERMS)) = true
      · simp only [placeNormalized, hv, if_true, hde, reduceIte] at hp
        rcases taggedRecords_pushCat_mem _ cat _ _ _ p
            (by simpa [placeNormalized, hv, hde] using hp) with h2 | h2
        · exact Or.inl h2
        · right
          rw [h2]
          rfl
      · rcases taggedRecords_pushCat_mem _ cat _ _ _ p
            (by simpa [placeNormalized, hv, hde] using hp) with h2 | h2
        · exact Or.inl h2
        · right
          rw [h2]
          rfl
    · by_cases h2 : dietKey = "Vegetarian"
      · subst h2
        rcases taggedRecords_pushCat_mem _ cat _ _ _ p
            (by simpa [placeNormalized, hv, h1] using hp) with h3 | h3
        · exact Or.inl h3
        · right
          rw [h3]
          rfl
      · rcases taggedRecords_pushCat_mem _ cat _ _ _ p
            (by simpa [placeNormalized, hv, h1, h2] using hp) with h3 | h3
        · exact Or.inl h3
        · right
          rw [h3]
          rfl

set_option maxHeartbeats 4000000 in
/-- C3 witness: the placement statement applied to a concrete Vegetarian
record containing fish, reclassified into the Regular bucket with
Regular first in its diets array. -/
theorem validateAndFix_diet_invariant_witness :
    checkDietViolations fishRec "Vegetarian" ≠ [] ∧
    (("Regular", rewriteDiets fishRec "Regular") ∈ taggedRecords initCatalog ∨
      (rewriteDiets fishRec "Regular").diets.head? = some (JVal.jstr "Regular")) := by
  refine ⟨by decide, ?_⟩
  refine validateAndFix_diet_invariant.2 initCatalog initState "India" "Vegetarian" fishRec
    (by decide) ("Regular", rewriteDiets fishRec "Regular") ?_
  rw [show taggedRecords (placeNormalized initCatalog "India" "Vegetarian" fishRec
      initState).1 = [("Regular", rewriteDiets fishRec "Regular")] from rfl]
  exact List.mem_singleton.mpr rfl

/-! ### C6: numeric fields of emitted records -/

set_option maxHeartbeats 4000000 in
/-- C6 counterexample.  A run on a catalog whose single meal carries
calories -5 emits a record whose calories value is the negative number
-5: the engine does not clamp numeric fields to be non-negative. -/
theorem validateAndFix_negative_calories :
    (taggedRecords (validateAndFix "2024-01-01T00:00:00.000Z" negCaloriesDoc).data).map
      (fun p => p.2.calories) = [JNum.val (-5)] ∧ ((-5 : ℚ) < 0) := by
  constructor
  · decide
  · norm_num

/-- C6 (amended).  Every record emitted by the engine has actual numbers
(never NaN) in all five of calories, protein, carbs, fat and fiber; a
record whose numeric fields are absent under every accepted alias gets
0 in all five; and a calories field given as a non-empty string that
fails to parse after cleaning coerces to 0; negative input values,
however, pass through unchanged. -/
theorem validateAndFix_numeric_fields :
    (∀ now input, ∀ p ∈ taggedRecords (validateAndFix now input).data, recNonNan p.2) ∧
    (∀ kvs regionKey dietKey hint idx st rec,
      jsGet (.jobj kvs) "calories" = .undef → jsGet (.jobj kvs) "kcal" = .undef →
      jsGet (.jobj kvs) "calories_kcal" = .undef →
      jsGet (.jobj kvs) "protein" = .undef → jsGet (.jobj kvs) "prot" = .undef →
      jsGet (.jobj kvs) "carbs" = .undef → jsGet (.jobj kvs) "carbohydrates" = .undef →
      jsGet (.jobj kvs) "carb" = .undef →
      jsGet (.jobj kvs) "fat" = .undef → jsGet (.jobj kvs) "fats" = .undef →
      jsGet (.jobj kvs) "fiber" = .undef → jsGet (.jobj kvs) "fib" = .undef →
      (normalizeMeal (.jobj kvs) regionKey dietKey hint idx st).1 = some rec →
      rec.calories = .val 0 ∧ rec.protein = .val 0 ∧ rec.carbs = .val 0 ∧
        rec.fat = .val 0 ∧ rec.fiber = .val 0) ∧
    (∀ kvs regionKey dietKey hint idx st rec s,
      jsGet (.jobj kvs) "calories" = .jstr s → s ≠ "" →
      parseFloatJs (cleanNumeric s) = JNum.nan →
      (normalizeMeal (.jobj kvs) regionKey dietKey hint idx st).1 = some rec →
      rec.calories = .val 0) := by
  refine ⟨?_, ?_, ?_⟩
  · intro now input p hp
    exact ((runCatalog_inv input).2.2.2.2 p hp).2
  · intro kvs regionKey dietKey hint idx st rec h1 h2 h3 h4 h5 h6 h7 h8 h9 h10 h11 h12 hres
    simp only [normalizeMeal, truthy, isObjLike] at hres
    rw [if_neg (by simp)] at hres
    have her := Option.some.inj hres
    subst her
    refine ⟨?_, ?_, ?_, ?_, ?_⟩ <;>
      simp [h1, h2, h3, h4, h5, h6, h7, h8, h9, h10, h11, h12, jsNullish, parseNumeric]
  · intro kvs regionKey dietKey hint idx st rec s hcal hs hpf hres
    simp only [normalizeMeal, truthy, isObjLike] at hres
    rw [if_neg (by simp)] at hres
    have her := Option.some.inj hres
    subst her
    simp [hcal, jsNullish, parseNumeric, hs, hpf]

/-- C6 witness: the amended statement applied to a meal object with no
numeric fields at all (every numeric field defaults to 0) and to a meal
object whose calories field is the unparseable string "abc" (calories
coerces to 0). -/
theorem validateAndFix_numeric_fields_witness :
    (jsGet (.jobj [("title", .jstr "x")]) "calories" = .undef ∧
     ∀ rec, (normalizeMeal (.jobj [("title", .jstr "x")]) "India" "Regular" .jnull 0
         initState).1 = some rec →
       rec.calories = .val 0 ∧ rec.protein = .val 0 ∧ rec.carbs = .val 0 ∧
         rec.fat = .val 0 ∧ rec.fiber = .val 0) ∧
    (jsGet (.jobj [("title", .jstr "x"), ("calories", .jstr "abc")]) "calories" =
       .jstr "abc" ∧
     parseFloatJs (cleanNumeric "abc") = JNum.nan ∧
     ∀ rec, (normalizeMeal (.jobj [("title", .jstr "x"), ("calories", .jstr "abc")])
         "India" "Regular" .jnull 0 initState).1 = some rec →
       rec.calories = .val 0) := by
  refine ⟨⟨rfl, fun rec hrec => ?_⟩, ⟨rfl, rfl, fun rec hrec => ?_⟩⟩
  · exact validateAndFix_numeric_fields.2.1 [("title", .jstr "x")] "India" "Regular" .jnull 0
      initState rec rfl rfl rfl rfl rfl rfl rfl rfl rfl rfl rfl rfl hrec
  · exact validateAndFix_numeric_fields.2.2 [("title", .jstr "x"), ("calories", .jstr "abc")]
      "India" "Regular" .jnull 0 initState rec "abc" rfl (by decide) rfl hrec

/-! ### C4: the Vegan reclassification cascade -/

/-- C4.  A normalized record placed under Vegan whose scanned text
contains violation keywords is stored under Vegetarian when every
offending term is in the dairy-or-egg subset and under Regular
otherwise; the target diet is placed first in the stored record's diets
array and the record is otherwise the same (same id). -/
theorem vegan_reclassification (cat : Catalog) (st : VState) (regionKey : String)
    (m : CanonRecord) (hshape : catShape cat = gridShape)
    (hr : regionKey ∈ CANONICAL_REGIONS) (hmt : m.mealType ∈ CANONICAL_MEAL_TYPES)
    (hv : checkDietViolations m "Vegan" ≠ []) :
    List.Perm (taggedRecords (placeNormalized cat regionKey "Vegan" m st).1)
      (((if (checkDietViolations m "Vegan").all (fun v => v ∈ DAIRY_EGG_TERMS)
          then "Vegetarian" else "Regular"),
        rewriteDiets m (if (checkDietViolations m "Vegan").all
          (fun v => v ∈ DAIRY_EGG_TERMS) then "Vegetarian" else "Regular")) ::
        taggedRecords cat) ∧
    (rewriteDiets m (if (checkDietViolations m "Vegan").all
        (fun v => v ∈ DAIRY_EGG_TERMS) then "Vegetarian" else "Regular")).diets.head? =
      some (JVal.jstr (if (checkDietViolations m "Vegan").all
        (fun v => v ∈ DAIRY_EGG_TERMS) then "Vegetarian" else "Regular")) ∧
    (rewriteDiets m (if (checkDietViolations m "Vegan").all
        (fun v => v ∈ DAIRY_EGG_TERMS) then "Vegetarian" else "Regular")).id = m.id := by
  by_cases hde : ((checkDietViolations m "Vegan").all fun v =>
      decide (v ∈ DAIRY_EGG_TERMS)) = true
  · refine ⟨?_, by rw [if_pos hde]; rfl, by rw [if_pos hde]; rfl⟩
    have hperm := taggedRecords_pushCat cat regionKey "Vegetarian"
      (mtBucketKey (rewriteDiets m "Vegetarian")) (rewriteDiets m "Vegetarian")
      hshape hr (by decide) (mtBucketKey_mem _ hmt)
    rw [if_pos hde]
    simpa [placeNormalized, hv, hde] using hperm
  · refine ⟨?_, by rw [if_neg hde]; rfl, by rw [if_neg hde]; rfl⟩
    have hperm := taggedRecords_pushCat cat regionKey "Regular"
      (mtBucketKey (rewriteDiets m "Regular")) (rewriteDiets m "Regular")
      hshape hr (by decide) (mtBucketKey_mem _ hmt)
    rw [if_neg hde]
    simpa [placeNormalized, hv, hde] using hperm

set_option maxHeartbeats 4000000 in
/-- C4 witness: the cascade applied to a concrete Vegan record whose
only offending term is milk (placed under Vegetarian), together with the
end-to-end runs of the engine on the milk catalog (stored under
Vegetarian) and on the milk-chicken catalog (stored under Regular). -/
theorem vegan_reclassification_witness :
    checkDietViolations milkRec "Vegan" = ["milk"] ∧
    (List.Perm (taggedRecords (placeNormalized initCatalog "India" "Vegan" milkRec
        initState).1)
      (((if (checkDietViolations milkRec "Vegan").all (fun v => v ∈ DAIRY_EGG_TERMS)
          then "Vegetarian" else "Regular"),
        rewriteDiets milkRec (if (checkDietViolations milkRec "Vegan").all
          (fun v => v ∈ DAIRY_EGG_TERMS) then "Vegetarian" else "Regular")) ::
        taggedRecords initCatalog) ∧
      (rewriteDiets milkRec (if (checkDietViolations milkRec "Vegan").all
          (fun v => v ∈ DAIRY_EGG_TERMS) then "Vegetarian" else "Regular")).diets.head? =
        some (JVal.jstr (if (checkDietViolations milkRec "Vegan").all
          (fun v => v ∈ DAIRY_EGG_TERMS) then "Vegetarian" else "Regular")) ∧
      (rewriteDiets milkRec (if (checkDietViolations milkRec "Vegan").all
          (fun v => v ∈ DAIRY_EGG_TERMS) then "Vegetarian" else "Regular")).id = milkRec.id) ∧
    (taggedRecords (validateAndFix "T" milkVeganDoc).data).map (fun p => (p.1, p.2.title)) =
      [("Vegetarian", "milk")] ∧
    (taggedRecords (validateAndFix "T" milkChickenVeganDoc).data).map
      (fun p => (p.1, p.2.title)) = [("Regular", "milk chicken")] := by
  refine ⟨by decide, ?_, by decide, by decide⟩
  exact vegan_reclassification initCatalog initState "India" milkRec catShape_initCatalog
    (by decide) (by decide) (by decide)

end MealsTool
